import Mathlib

/-! A shallow embedding of `pyxmpp/cache.py` (the caching proxy: `CacheItem`,
`CacheFetcher`, `Cache`) and of the receiver-side language-negotiation loop of
`pyxmpp/streambase.py`, together with theorems settling the specification's
claims about them.

Modelling conventions:

* instants (Python `datetime`) are integers (think microseconds since the
  epoch); `datetime.max` is the top element of `WithTop Int`;
* within one locked operation every `datetime.utcnow()` read returns the same
  `now` argument (the Python reads inside one call are microseconds apart);
* Python object identity (`id(...)`) is an allocation counter `next_id`; the
  item and fetcher stores are association lists keyed by these identities, so
  in-place mutation of an object that `_items`, `_items_list` and a returned
  reference share is one heap update seen by all of them;
* application callbacks (`object_handler`, `error_handler`, `timeout_handler`)
  and the virtual `fetch()` are recorded as emitted events, not executed, and
  in particular never re-enter the cache;
* `int(0.75*self.max_items)` is `3 * max_items / 4` and
  `self._purged > 0.25*self.max_items` is `4 * purged > max_items` (both exact
  for every realistic `max_items`);
* a Python `dict` is an association list; deleting a missing key is a no-op
  (the source wraps `del` in `try/except KeyError`). -/

/-- Item addresses (opaque hashables in the source). -/
abbrev Addr := Nat

/-- Item values (opaque payloads in the source). -/
abbrev Val := Nat

/-- Instants, with `⊤` playing `datetime.max`. -/
abbrev DT := WithTop Int

/-- The five cache item states of `_state_values` in `cache.py`. -/
inductive CState where
  | new
  | fresh
  | old
  | stale
  | purged
deriving DecidableEq, Repr

/-- `_state_values`: the numeric rank of each state ('purged' intentionally
ties with 'stale' at 3). -/
def stateValue : CState → Nat
  | .new => 0
  | .fresh => 1
  | .old => 2
  | .stale => 3
  | .purged => 3

/-- Position of a state along the lifecycle chain
New → Fresh → Old → Stale → Purged (unlike `stateValue` this does not tie
'stale' with 'purged'; used to express monotone promotion). -/
def chainIdx : CState → Nat
  | .new => 0
  | .fresh => 1
  | .old => 2
  | .stale => 3
  | .purged => 4

/-- `CacheItem`: one cached value with its lifecycle deadlines.  The
`state_value` field is stored, as in the source (`self.state_value`), and is
re-derived from `state` by `update_state`. -/
structure CacheItem where
  address : Addr
  value : Val
  timestamp : Int
  freshness_time : Int
  expire_time : Int
  purge_time : DT
  state : CState
  state_value : Nat
deriving DecidableEq, Repr

/-- `CacheItem.__init__`.  The source's period checks execute
`return ValueError, msg` instead of raising; because `__init__` then returns a
non-`None` value, CPython aborts the construction with a `TypeError`, so no
item is produced either way: both failing paths are `none` here.  A zero
`purge_period` (falsy in Python) yields `purge_time = datetime.max`. -/
def CacheItem.init (now : Int) (address : Addr) (value : Val)
    (freshness_period expiration_period purge_period : Int)
    (state : CState) : Option CacheItem :=
  if freshness_period > expiration_period then none
  else if expiration_period > purge_period then none
  else some {
    address := address
    value := value
    timestamp := now
    freshness_time := now + freshness_period
    expire_time := now + expiration_period
    purge_time := if purge_period ≠ 0 then ((now + purge_period : Int) : DT) else ⊤
    state := state
    state_value := stateValue state }

/-- The cascade of four `if` statements in `CacheItem.update_state`. -/
def cascade (s : CState) (now freshness_time expire_time : Int) (purge_time : DT) :
    CState :=
  let s1 := if s = .new then .fresh else s
  let s2 := if s1 = .fresh ∧ now > freshness_time then .old else s1
  let s3 := if s2 = .old ∧ now > expire_time then .stale else s2
  if s3 = .stale ∧ purge_time < (now : DT) then .purged else s3

/-- `CacheItem.update_state`: run the cascade, then refresh `state_value`. -/
def CacheItem.update_state (it : CacheItem) (now : Int) : CacheItem :=
  let s4 := cascade it.state now it.freshness_time it.expire_time it.purge_time
  { it with state := s4, state_value := stateValue s4 }

/-- Sort key of a `CacheItem` under `__cmp__`:
`(-self.state_value, self.timestamp, id(self))`; the identity is the heap
key of the item. -/
abbrev IKey := Int × Int × Nat

/-- Association-list lookup keyed by `Nat` (object identities and addresses
are both naturals here). -/
def alookup {β : Type} (l : List (Nat × β)) (k : Nat) : Option β :=
  (l.find? (fun p => p.1 = k)).map (fun p => p.2)

/-- Heap update: a fresh binding shadows the old one. -/
def aset {β : Type} (l : List (Nat × β)) (k : Nat) (v : β) : List (Nat × β) :=
  (k, v) :: l

/-- `del d[k]` on a Python dict (a no-op when the key is missing, as under the
source's `try/except KeyError`). -/
def adel {β : Type} (l : List (Nat × β)) (k : Nat) : List (Nat × β) :=
  l.filter (fun p => p.1 ≠ k)

/-- Dict insertion `d[k] = v`: the single binding for `k` is replaced. -/
def aput {β : Type} (l : List (Nat × β)) (k : Nat) (v : β) : List (Nat × β) :=
  (k, v) :: adel l k

/-- Generic lexicographic extension of a boolean order by a linear order on
the first component; used for the tuple comparisons Python performs when
sorting `_items_list` and `_active_fetchers`. -/
def lex2 {α β : Type} [LinearOrder α] (le : β → β → Bool) (p q : α × β) : Bool :=
  decide (p.1 < q.1) || (decide (p.1 = q.1) && le p.2 q.2)

theorem lex2_total {α β : Type} [LinearOrder α] (le : β → β → Bool)
    (h : ∀ a b, le a b = true ∨ le b a = true) (p q : α × β) :
    lex2 le p q = true ∨ lex2 le q p = true := by
  rcases lt_trichotomy p.1 q.1 with hlt | heq | hgt
  · left; simp [lex2, hlt]
  · rcases h p.2 q.2 with h2 | h2
    · left; simp [lex2, heq, h2]
    · right; simp [lex2, heq.symm, h2]
  · right; simp [lex2, hgt]

theorem lex2_trans {α β : Type} [LinearOrder α] (le : β → β → Bool)
    (h : ∀ a b c, le a b = true → le b c = true → le a c = true) (p q r : α × β)
    (hpq : lex2 le p q = true) (hqr : lex2 le q r = true) :
    lex2 le p r = true := by
  simp only [lex2, Bool.or_eq_true, Bool.and_eq_true, decide_eq_true_eq] at *
  rcases hpq with h1 | ⟨h1, h1'⟩ <;> rcases hqr with h2 | ⟨h2, h2'⟩
  · exact Or.inl (lt_trans h1 h2)
  · exact Or.inl (h2 ▸ h1)
  · exact Or.inl (h1 ▸ h2)
  · exact Or.inr ⟨h1.trans h2, h p.2 q.2 r.2 h1' h2'⟩

/-- Boolean `≤` on naturals, base case of the lexicographic keys. -/
def natLe (a b : Nat) : Bool := decide (a ≤ b)

theorem natLe_total (a b : Nat) : natLe a b = true ∨ natLe b a = true := by
  simp [natLe]; omega

theorem natLe_trans (a b c : Nat) (h1 : natLe a b = true) (h2 : natLe b c = true) :
    natLe a c = true := by
  simp [natLe] at *; omega

/-- Comparison of two item sort keys. -/
def ikeyLe : IKey → IKey → Bool := lex2 (lex2 natLe)

theorem ikeyLe_total (p q : IKey) : ikeyLe p q = true ∨ ikeyLe q p = true :=
  lex2_total _ (fun a b => lex2_total _ natLe_total a b) p q

theorem ikeyLe_trans (p q r : IKey) (h1 : ikeyLe p q = true)
    (h2 : ikeyLe q r = true) : ikeyLe p r = true :=
  lex2_trans _ (fun a b c => lex2_trans _ natLe_trans a b c) p q r h1 h2

/-- Comparison of two `(timeout_time, fetcher)` tuples: the `datetime` first,
then (for equal deadlines) the fetcher identity, standing for the arbitrary
but fixed `id`-based tie-break Python applies to instances. -/
def fkeyLe : DT × Nat → DT × Nat → Bool := lex2 natLe

theorem fkeyLe_total (p q : DT × Nat) : fkeyLe p q = true ∨ fkeyLe q p = true :=
  lex2_total _ natLe_total p q

theorem fkeyLe_trans (p q r : DT × Nat) (h1 : fkeyLe p q = true)
    (h2 : fkeyLe q r = true) : fkeyLe p r = true :=
  lex2_trans _ natLe_trans p q r h1 h2

/-- Insertion step of `list.sort()` (any comparison sort agrees with it on the
total orders used here, whose keys contain the distinct identities). -/
def insertLe {α : Type} (le : α → α → Bool) (a : α) : List α → List α
  | [] => [a]
  | b :: l => if le a b then a :: b :: l else b :: insertLe le a l

/-- `list.sort()` as an insertion sort. -/
def sortLe {α : Type} (le : α → α → Bool) : List α → List α
  | [] => []
  | a :: l => insertLe le a (sortLe le l)

theorem insertLe_perm {α : Type} (le : α → α → Bool) (a : α) (l : List α) :
    List.Perm (insertLe le a l) (a :: l) := by
  induction l with
  | nil => exact List.Perm.refl _
  | cons b l ih =>
    by_cases h : le a b = true
    · simp [insertLe, h]
    · simp only [insertLe, h, if_false, Bool.false_eq_true]
      exact (ih.cons b).trans (List.Perm.swap a b l)

theorem sortLe_perm {α : Type} (le : α → α → Bool) (l : List α) :
    List.Perm (sortLe le l) l := by
  induction l with
  | nil => exact List.Perm.refl _
  | cons a l ih => exact (insertLe_perm le a (sortLe le l)).trans (ih.cons a)

/-- Sortedness with respect to a boolean order. -/
def SortedLe {α : Type} (le : α → α → Bool) (l : List α) : Prop :=
  l.Pairwise (fun a b => le a b = true)

theorem insertLe_sorted {α : Type} (le : α → α → Bool)
    (htot : ∀ a b, le a b = true ∨ le b a = true)
    (htr : ∀ a b c, le a b = true → le b c = true → le a c = true)
    (a : α) (l : List α) (hl : SortedLe le l) : SortedLe le (insertLe le a l) := by
  induction l with
  | nil => simp [insertLe, SortedLe]
  | cons b l ih =>
    rcases List.pairwise_cons.mp hl with ⟨hb, hl'⟩
    by_cases h : le a b = true
    · simp only [insertLe, h, if_true]
      refine List.pairwise_cons.mpr ⟨?_, hl⟩
      intro x hx
      rcases List.mem_cons.mp hx with rfl | hx
      · exact h
      · exact htr a b x h (hb x hx)
    · have hba : le b a = true := (htot a b).resolve_left h
      simp only [insertLe, h, if_false, Bool.false_eq_true]
      refine List.pairwise_cons.mpr ⟨?_, ih hl'⟩
      intro x hx
      rcases List.mem_cons.mp ((insertLe_perm le a l).mem_iff.mp hx) with rfl | hx
      · exact hba
      · exact hb x hx

theorem sortLe_sorted {α : Type} (le : α → α → Bool)
    (htot : ∀ a b, le a b = true ∨ le b a = true)
    (htr : ∀ a b c, le a b = true → le b c = true → le a c = true)
    (l : List α) : SortedLe le (sortLe le l) := by
  induction l with
  | nil => exact List.Pairwise.nil
  | cons a l ih => exact insertLe_sorted le htot htr a (sortLe le l) ih

/-- The state name handed to `object_handler`: a cache state name, or the
literal string `'error'` used by the default error handler that
`request_object` installs. -/
inductive HState where
  | st (s : CState)
  | error
deriving DecidableEq, Repr

/-- Observable effects: callback invocations and the virtual `fetch()` call
(dispatched to the fetcher subclass), recorded in order. -/
inductive Ev where
  | objectHandler (address : Addr) (value : Option Val) (state : HState)
  | errorHandler (address : Addr) (error_data : Option Nat)
  | timeoutHandler (address : Addr)
  | fetchCalled (address : Addr)
deriving DecidableEq, Repr

/-- `CacheFetcher` instance state.  Handlers are kept abstract:
`default_error_handler` records that `_error_handler` is the wrapper
`request_object` installs when the caller passes none (it calls
`object_handler(address, None, 'error')`), and `has_timeout_handler` whether
`_timeout_handler` is set. -/
structure CacheFetcher where
  address : Addr
  item_freshness_period : Int
  item_expiration_period : Int
  item_purge_period : Int
  default_error_handler : Bool
  has_timeout_handler : Bool
  backup_state : Option CState
  timeout_time : DT
  active : Bool
deriving DecidableEq, Repr

/-- `CacheFetcher.__init__`: a zero (falsy) `timeout_period` yields
`timeout_time = datetime.max`; the fetcher starts active. -/
def CacheFetcher.init (now : Int) (address : Addr)
    (item_freshness_period item_expiration_period item_purge_period : Int)
    (default_error_handler has_timeout_handler : Bool)
    (backup_state : Option CState) (timeout_period : Int) : CacheFetcher :=
  { address := address
    item_freshness_period := item_freshness_period
    item_expiration_period := item_expiration_period
    item_purge_period := item_purge_period
    default_error_handler := default_error_handler
    has_timeout_handler := has_timeout_handler
    backup_state := backup_state
    timeout_time :=
      if timeout_period ≠ 0 then ((now + timeout_period : Int) : DT) else ⊤
    active := true }

/-- Failures that abort a cache call.  `configuration_error` is the source's
`raise TypeError, "No cache fetcher defined"` (the spec's ConfigurationError);
`item_construction_error` is `CacheItem.__init__` rejecting the periods. -/
inductive CacheError where
  | configuration_error
  | item_construction_error
deriving DecidableEq, Repr

/-- The `Cache` object.  `items` is the `_items` dict (address → item
identity), `items_list`/`active_fetchers` hold identities into the two heaps,
`purged` is `_purged`, and `fetcher_set` is the truthiness of `self._fetcher`
(`False` covers both the never-assigned attribute and `set_fetcher(None)`,
which make `request_object` fail). -/
structure Cache where
  max_items : Nat
  default_freshness_period : Int
  default_expiration_period : Int
  default_purge_period : Int
  items : List (Addr × Nat)
  items_list : List Nat
  iheap : List (Nat × CacheItem)
  fheap : List (Nat × CacheFetcher)
  active_fetchers : List (DT × Nat)
  purged : Nat
  fetcher_set : Bool
  next_id : Nat
deriving DecidableEq, Repr

/-- `Cache.__init__`. -/
def Cache.init (max_items : Nat)
    (default_freshness_period default_expiration_period default_purge_period : Int) :
    Cache :=
  { max_items := max_items
    default_freshness_period := default_freshness_period
    default_expiration_period := default_expiration_period
    default_purge_period := default_purge_period
    items := []
    items_list := []
    iheap := []
    fheap := []
    active_fetchers := []
    purged := 0
    fetcher_set := false
    next_id := 0 }

/-- `Cache.set_fetcher` keeps only the truthiness of the factory. -/
def Cache.set_fetcher (c : Cache) (factory : Bool) : Cache :=
  { c with fetcher_set := factory }

/-- `Cache.num_items`. -/
def Cache.num_items (c : Cache) : Nat := c.items_list.length

/-- Sort key of the item bound to identity `i`
(`(-state_value, timestamp, id(self))` from `CacheItem.__cmp__`); identities
dangling outside the heap cannot occur through the modelled API. -/
def ikey (h : List (Nat × CacheItem)) (i : Nat) : IKey :=
  match alookup h i with
  | some it => (-(it.state_value : Int), it.timestamp, i)
  | none => (0, 0, i)

/-- `self._items_list.sort()`. -/
def sortItems (h : List (Nat × CacheItem)) (l : List Nat) : List Nat :=
  sortLe (fun i j => ikeyLe (ikey h i) (ikey h j)) l

/-- `self._active_fetchers.sort()` on `(timeout_time, fetcher)` tuples. -/
def sortFetchers (l : List (DT × Nat)) : List (DT × Nat) :=
  sortLe fkeyLe l

/-- The `for i in range(need_remove)` loop of `purge_items`: pop the head of
`_items_list` and delete its address from `_items` (`KeyError` ignored).  The
source never pops an empty list because `need_remove ≤ len(il)`. -/
def popHeads (h : List (Nat × CacheItem)) :
    Nat → List Nat → List (Addr × Nat) → List Nat × List (Addr × Nat)
  | 0, l, d => (l, d)
  | _ + 1, [], d => ([], d)
  | n + 1, i :: l, d =>
    popHeads h n l
      (match alookup h i with
       | some it => adel d it.address
       | none => d)

/-- The `while il and il[0].update_state()=="purged"` loop of `purge_items`:
the head is state-updated (a mutation that persists even when the loop then
stops) and popped while it updates to 'purged'. -/
def purgeWhile (now : Int) :
    List Nat → List (Nat × CacheItem) → List (Addr × Nat) →
    List Nat × List (Nat × CacheItem) × List (Addr × Nat)
  | [], h, d => ([], h, d)
  | i :: l, h, d =>
    match alookup h i with
    | none => (i :: l, h, d)
    | some it =>
      let it2 := it.update_state now
      let h2 := aset h i it2
      if it2.state = .purged then purgeWhile now l h2 (adel d it2.address)
      else (i :: l, h2, d)

/-- `Cache.purge_items`: drop `len - int(0.75*max_items)` items from the head,
then keep popping heads that update to 'purged'. -/
def Cache.purge_items (c : Cache) (now : Int) : Cache :=
  let need := c.items_list.length - 3 * c.max_items / 4
  let p := popHeads c.iheap need c.items_list c.items
  let q := purgeWhile now p.1 c.iheap p.2
  { c with items_list := q.1, iheap := q.2.1, items := q.2.2 }

/-- `Cache.update_item`: update the item's state in place, re-sort the list,
and on a transition into 'purged' bump `_purged` and compact once more than a
quarter of `max_items` have been seen to purge. -/
def Cache.update_item (c : Cache) (now : Int) (iid : Nat) : CState × Cache :=
  match alookup c.iheap iid with
  | none => (.new, c)
  | some it =>
    let it2 := it.update_state now
    let c1 := { c with iheap := aset c.iheap iid it2 }
    let c2 := { c1 with items_list := sortItems c1.iheap c1.items_list }
    if it2.state = .purged then
      let c3 := { c2 with purged := c2.purged + 1 }
      if 4 * c3.purged > c3.max_items then (it2.state, c3.purge_items now)
      else (it2.state, c3)
    else (it2.state, c2)

/-- `Cache.get_item`, returning the identity of the chosen item (the Python
function returns the object reference; the caller reads the heap).  The item
reference is obtained from `_items` before `update_item` runs, so it is
returned even if `update_item`'s compaction evicted it from the cache. -/
def Cache.get_item_ref (c : Cache) (now : Int) (address : Addr) (state : CState) :
    Option Nat × Cache :=
  match alookup c.items address with
  | none => (none, c)
  | some iid =>
    let c2 := (c.update_item now iid).2
    match alookup c2.iheap iid with
    | none => (none, c2)
    | some it =>
      if stateValue state ≥ it.state_value then (some iid, c2) else (none, c2)

/-- `Cache.get_item` as the caller sees it: the (updated) item itself. -/
def Cache.get_item (c : Cache) (now : Int) (address : Addr) (state : CState) :
    Option CacheItem × Cache :=
  let r := c.get_item_ref now address state
  (r.1.bind (alookup r.2.iheap), r.2)

/-- `Cache.invalidate_object`: look the item up with `get_item(address)` —
whose acceptance state defaults to 'fresh' — and only when that lookup
returns it and its `state_value` is below the target's, overwrite the state,
re-run `update_state` and re-sort. -/
def Cache.invalidate_object (c : Cache) (now : Int) (address : Addr)
    (state : CState) : Cache :=
  let g := c.get_item_ref now address .fresh
  let c2 := g.2
  match g.1 with
  | none => c2
  | some iid =>
    match alookup c2.iheap iid with
    | none => c2
    | some it =>
      if it.state_value < stateValue state then
        let it2 := CacheItem.update_state { it with state := state } now
        let c3 := { c2 with iheap := aset c2.iheap iid it2 }
        { c3 with items_list := sortItems c3.iheap c3.items_list }
      else c2

/-- `Cache.add_item`: update the item's state first; unless it is 'purged',
compact when at capacity, then bind the address in `_items`, append to
`_items_list` and re-sort.  The new object gets a fresh identity. -/
def Cache.add_item (c : Cache) (now : Int) (item : CacheItem) : CState × Cache :=
  let iid := c.next_id
  let it := item.update_state now
  let c1 := { c with iheap := aset c.iheap iid it, next_id := iid + 1 }
  if it.state ≠ .purged then
    let c2 := if c1.items_list.length ≥ c1.max_items then c1.purge_items now else c1
    let c3 := { c2 with items := aput c2.items it.address iid }
    let c4 := { c3 with items_list := sortItems c3.iheap (c3.items_list ++ [iid]) }
    (it.state, c4)
  else (it.state, c1)

/-- Remove the first `(t, f)` tuple whose fetcher is the given one. -/
def eraseFirstFid (l : List (DT × Nat)) (fid : Nat) : List (DT × Nat) :=
  match l with
  | [] => []
  | p :: rest => if p.2 = fid then rest else p :: eraseFirstFid rest fid

/-- `Cache.remove_fetcher`: scan `_active_fetchers` for the fetcher by
identity; when found, remove the tuple and run the fetcher's `_deactivated()`
(clear `active`); when absent, do nothing. -/
def Cache.remove_fetcher (c : Cache) (fid : Nat) : Cache :=
  if c.active_fetchers.any (fun p => p.2 = fid) then
    let c1 := { c with active_fetchers := eraseFirstFid c.active_fetchers fid }
    match alookup c1.fheap fid with
    | some f => { c1 with fheap := aset c1.fheap fid { f with active := false } }
    | none => c1
  else c

/-- `CacheFetcher._deactivate`: ask the cache to remove the fetcher, and if
still marked active (the cache did not list it) run `_deactivated()`
directly. -/
def CacheFetcher.deactivate (c : Cache) (fid : Nat) : Cache :=
  let c1 := c.remove_fetcher fid
  match alookup c1.fheap fid with
  | some f =>
    if f.active then { c1 with fheap := aset c1.fheap fid { f with active := false } }
    else c1
  | none => c1

/-- `CacheFetcher._try_backup_item`.  The source's failure branch is a bare
`False` expression without `return`, so the method returns `None` there: both
are falsy, modelled as `false`. -/
def CacheFetcher.try_backup_item (f : CacheFetcher) (c : Cache) (now : Int) :
    Bool × Cache × List Ev :=
  match f.backup_state with
  | none => (false, c, [])
  | some bs =>
    let g := c.get_item now f.address bs
    match g.1 with
    | some it => (true, g.2, [Ev.objectHandler it.address (some it.value) (.st it.state)])
    | none => (false, g.2, [])

/-- A call to the fetcher's `_error_handler`: the wrapper installed by
`request_object` forwards to `object_handler(address, None, 'error')`. -/
def CacheFetcher.dispatchError (f : CacheFetcher) (error_data : Option Nat) : Ev :=
  if f.default_error_handler then .objectHandler f.address none .error
  else .errorHandler f.address error_data

/-- `CacheFetcher.got_it`: no-op when inactive; otherwise build the item (a
failing construction aborts the call), call `object_handler`, insert, and
deactivate. -/
def CacheFetcher.got_it (c : Cache) (now : Int) (fid : Nat) (value : Val)
    (state : CState) : Except CacheError (Cache × List Ev) :=
  match alookup c.fheap fid with
  | none => .ok (c, [])
  | some f =>
    if ¬ f.active then .ok (c, [])
    else
      match CacheItem.init now f.address value f.item_freshness_period
          f.item_expiration_period f.item_purge_period state with
      | none => .error .item_construction_error
      | some item =>
        let evs := [Ev.objectHandler item.address (some item.value) (.st item.state)]
        let c1 := (c.add_item now item).2
        (.ok (CacheFetcher.deactivate c1 fid, evs))

/-- `CacheFetcher.error`: no-op when inactive; otherwise deliver a backup item
or call the error handler, invalidate the cached object, deactivate. -/
def CacheFetcher.error (c : Cache) (now : Int) (fid : Nat)
    (error_data : Option Nat) : Cache × List Ev :=
  match alookup c.fheap fid with
  | none => (c, [])
  | some f =>
    if ¬ f.active then (c, [])
    else
      let tb := f.try_backup_item c now
      let evs := if tb.1 then tb.2.2 else tb.2.2 ++ [f.dispatchError error_data]
      let c2 := (tb.2.1).invalidate_object now f.address .stale
      (CacheFetcher.deactivate c2 fid, evs)

/-- `CacheFetcher.timeout`: no-op when inactive; otherwise deliver a backup
item or call `timeout_handler` (falling back to the error handler with
`None`), invalidate, deactivate. -/
def CacheFetcher.timeout (c : Cache) (now : Int) (fid : Nat) : Cache × List Ev :=
  match alookup c.fheap fid with
  | none => (c, [])
  | some f =>
    if ¬ f.active then (c, [])
    else
      let tb := f.try_backup_item c now
      let evs :=
        if tb.1 then tb.2.2
        else if f.has_timeout_handler then tb.2.2 ++ [Ev.timeoutHandler f.address]
        else tb.2.2 ++ [f.dispatchError none]
      let c2 := (tb.2.1).invalidate_object now f.address .stale
      (CacheFetcher.deactivate c2 fid, evs)

/-- `Cache.request_object`: serve a hit synchronously, require a fetcher
factory, fill default periods, construct the fetcher, call its `fetch()` and
register it sorted by deadline.  `explicit_error_handler` records whether the
caller supplied `error_handler` (otherwise the forwarding wrapper is
installed). -/
def Cache.request_object (c : Cache) (now : Int) (address : Addr) (state : CState)
    (explicit_error_handler has_timeout_handler : Bool)
    (backup_state : Option CState) (timeout : Int)
    (freshness_period expiration_period purge_period : Option Int) :
    Except CacheError (Cache × List Ev) :=
  let g := c.get_item now address state
  let c1 := g.2
  let evs := match g.1 with
    | some it => [Ev.objectHandler it.address (some it.value) (.st it.state)]
    | none => []
  if ¬ c1.fetcher_set then .error .configuration_error
  else
    let f_p := freshness_period.getD c1.default_freshness_period
    let e_p := expiration_period.getD c1.default_expiration_period
    let p_p := purge_period.getD c1.default_purge_period
    let fid := c1.next_id
    let f := CacheFetcher.init now address f_p e_p p_p
      (!explicit_error_handler) has_timeout_handler backup_state timeout
    let c2 := { c1 with fheap := aset c1.fheap fid f, next_id := fid + 1 }
    let evs := evs ++ [Ev.fetchCalled address]
    let c3 := { c2 with
      active_fetchers := sortFetchers (c2.active_fetchers ++ [(f.timeout_time, fid)]) }
    .ok (c3, evs)

/-- The `for t,f in list(self._active_fetchers)` sweep of `Cache.tick`: the
loop runs over a snapshot of the list while `timeout()` mutates the live
one. -/
def Cache.tickAux (now : Int) : List (DT × Nat) → Cache → Cache × List Ev
  | [], c => (c, [])
  | (t, fid) :: rest, c =>
    if (now : DT) < t then (c, [])
    else
      let r := CacheFetcher.timeout c now fid
      let r2 := Cache.tickAux now rest r.1
      (r2.1, r.2 ++ r2.2)

/-- `Cache.tick`: time out every overdue fetcher, then compact. -/
def Cache.tick (c : Cache) (now : Int) : Cache × List Ev :=
  let p := Cache.tickAux now c.active_fetchers c
  (p.1.purge_items now, p.2)

/-- ASCII alphanumerics, the `[a-zA-Z0-9]` class of `LANG_SPLIT_RE` in
`streambase.py`. -/
def isAlnumAscii (c : Char) : Bool :=
  (decide ('a' ≤ c) && decide (c ≤ 'z'))
  || (decide ('A' ≤ c) && decide (c ≤ 'Z'))
  || (decide ('0' ≤ c) && decide (c ≤ '9'))

/-- Whether `LANG_SPLIT_RE = r"(.*)(?:-[a-zA-Z0-9])?-[a-zA-Z0-9]+$"` matches
the whole string from position 0: some `'-'` must open a nonempty
all-alphanumeric tail running to the end, with `.*` (which cannot cross a
newline) consuming everything before it.  The optional middle group adds no
matches: anything it absorbs, `.*` absorbs too. -/
def langSplitCore : List Char → Bool
  | [] => false
  | c :: rest =>
    (decide (c = '-') && !rest.isEmpty && rest.all isAlnumAscii)
    || (decide (c ≠ '\n') && langSplitCore rest)

/-- `LANG_SPLIT_RE.match(s)` succeeds: in Python, `$` also matches just
before a newline that ends the string. -/
def langSplitMatches (s : List Char) : Bool :=
  langSplitCore s || (decide (s.getLast? = some '\n') && langSplitCore s.dropLast)

/-- `match.group(0)` of a successful `LANG_SPLIT_RE.match(s)`: the regex is
anchored at position 0 by `re.match` and at the end by `$`, so the matched
text is the whole string (minus a final newline in the `$`-before-newline
case).  It is NOT the `(.*)` capture group: the source uses `group(0)`. -/
def langSplitGroup0 (s : List Char) : List Char :=
  if langSplitCore s then s
  else if langSplitMatches s then s.dropLast
  else s

/-- The receiver-side `while peer_lang:` language-negotiation loop of
`StreamBase.stream_start`, run with `fuel` bounding the iterations: `some r`
when the loop exits (`r` the negotiated language, `none` for no match),
`none` when the fuel runs out — i.e. the loop has not terminated within
`fuel` iterations. -/
def negotiateLang (languages : List (List Char)) :
    Nat → List Char → Option (Option (List Char))
  | 0, _ => none
  | fuel + 1, peer_lang =>
    if peer_lang.isEmpty then some none
    else if peer_lang ∈ languages then some (some peer_lang)
    else if langSplitMatches peer_lang then
      negotiateLang languages fuel (langSplitGroup0 peer_lang)
    else some none

/-- C7: `update_state` promotes the state only monotonically along the chain
New→Fresh→Old→Stale→Purged (it never rolls back), each boundary beyond Fresh
is crossed only when its deadline has passed (`freshness_time`,
`expire_time`, `purge_time` respectively; New→Fresh is immediate), the
promotion cascades through every applicable step within the single call, and
the stored `state_value` is updated to match the new state. -/
theorem C7_update_state_monotone (it : CacheItem) (now : Int) :
    chainIdx it.state ≤ chainIdx (it.update_state now).state
    ∧ (it.update_state now).state_value = stateValue (it.update_state now).state
    ∧ (chainIdx it.state = 0 → 1 ≤ chainIdx (it.update_state now).state)
    ∧ (chainIdx it.state ≤ 1 → 2 ≤ chainIdx (it.update_state now).state →
        now > it.freshness_time)
    ∧ (chainIdx it.state ≤ 2 → 3 ≤ chainIdx (it.update_state now).state →
        now > it.expire_time)
    ∧ (chainIdx it.state ≤ 3 → 4 ≤ chainIdx (it.update_state now).state →
        it.purge_time < (now : DT))
    ∧ (chainIdx it.state ≤ 1 → now > it.freshness_time →
        2 ≤ chainIdx (it.update_state now).state)
    ∧ (chainIdx it.state ≤ 2 → (chainIdx it.state ≤ 1 → now > it.freshness_time) →
        now > it.expire_time → 3 ≤ chainIdx (it.update_state now).state)
    ∧ (chainIdx it.state ≤ 3 → (chainIdx it.state ≤ 1 → now > it.freshness_time) →
        (chainIdx it.state ≤ 2 → now > it.expire_time) → it.purge_time < (now : DT) →
        4 ≤ chainIdx (it.update_state now).state) := by
  obtain ⟨a, v, ts, ft, et, pt, s, sv⟩ := it
  by_cases h1 : now > ft <;> by_cases h2 : now > et <;>
    by_cases h3 : pt < (now : DT) <;> cases s <;>
    simp [CacheItem.update_state, cascade, chainIdx, stateValue, h1, h2, h3]

/-- C9: constructing a `CacheItem` with out-of-order periods produces no item
(first two conjuncts: concrete failing constructions), and every successfully
constructed item has `freshness_time ≤ expire_time ≤ purge_time`.  The claim
expects the failure to be a raised ValidationError; the source instead
executes `return ValueError, msg` inside `__init__`, so CPython aborts the
construction with a `TypeError` — the guard works, the exception is the
wrong one. -/
theorem C9_init_period_guard :
    CacheItem.init 0 0 0 2 1 3 .new = none
    ∧ CacheItem.init 0 0 0 1 3 2 .new = none
    ∧ ∀ (now : Int) (a : Addr) (v : Val) (fp ep pp : Int) (st : CState)
        (it : CacheItem), CacheItem.init now a v fp ep pp st = some it →
        it.freshness_time ≤ it.expire_time
        ∧ (it.expire_time : DT) ≤ it.purge_time := by
  refine ⟨by decide, by decide, ?_⟩
  intro now a v fp ep pp st it h
  unfold CacheItem.init at h
  split at h
  · exact absurd h (by simp)
  · split at h
    · exact absurd h (by simp)
    · rename_i h1 h2
      injection h with h3
      subst h3
      refine ⟨by simp; omega, ?_⟩
      dsimp only
      by_cases hp : pp ≠ 0
      · rw [if_pos hp]
        exact_mod_cast (by omega : now + ep ≤ now + pp)
      · rw [if_neg hp]
        exact le_top

/-- C8: the receiver-side language-negotiation loop does NOT terminate on
`peer_lang = "en-US"` with supported languages `("en",)`: the source assigns
`peer_lang = match.group(0)`, the whole matched string, instead of the
`(.*)` capture, so the tag never shrinks and the `while` loop never exits —
whatever iteration bound it is given, the loop is still running. -/
theorem C8_negotiation_loop_diverges :
    ∀ fuel : Nat,
      negotiateLang [['e', 'n']] fuel ['e', 'n', '-', 'U', 'S'] = none := by
  intro fuel
  induction fuel with
  | zero => rfl
  | succ n ih =>
    have h0 : langSplitGroup0 ['e', 'n', '-', 'U', 'S'] = ['e', 'n', '-', 'U', 'S'] := by
      decide
    unfold negotiateLang
    rw [if_neg (by decide), if_neg (by decide), if_pos (by decide), h0]
    exact ih

theorem alookup_aset_self {β : Type} (l : List (Nat × β)) (k : Nat) (v : β) :
    alookup (aset l k v) k = some v := by
  simp [alookup, aset]

theorem alookup_aset_ne {β : Type} (l : List (Nat × β)) (k j : Nat) (v : β)
    (h : ¬ k = j) : alookup (aset l k v) j = alookup l j := by
  simp [alookup, aset, h]

/-- The cascade reaches a fixed point within one call. -/
theorem cascade_fix (s : CState) (now freshness_time expire_time : Int)
    (purge_time : DT) :
    cascade (cascade s now freshness_time expire_time purge_time)
        now freshness_time expire_time purge_time
      = cascade s now freshness_time expire_time purge_time := by
  by_cases h1 : now > freshness_time <;> by_cases h2 : now > expire_time <;>
    by_cases h3 : purge_time < (now : DT) <;> cases s <;>
    simp [cascade, h1, h2, h3]

/-- Re-running `update_state` at the same instant changes nothing: the cascade
already ran to its fixed point. -/
theorem update_state_idem (it : CacheItem) (now : Int) :
    (it.update_state now).update_state now = it.update_state now := by
  simp [CacheItem.update_state, cascade_fix]

theorem option_map_update_state_idem (x : Option CacheItem) (now : Int) :
    (x.map (fun it => it.update_state now)).map (fun it => it.update_state now)
      = x.map (fun it => it.update_state now) := by
  cases x with
  | none => rfl
  | some it => simp [update_state_idem]

/-- The compaction loop touches a heap binding only by applying
`update_state` at the current instant. -/
theorem purgeWhile_alookup (now : Int) (l : List Nat) (h : List (Nat × CacheItem))
    (d : List (Addr × Nat)) (j : Nat) :
    alookup (purgeWhile now l h d).2.1 j = alookup h j
    ∨ alookup (purgeWhile now l h d).2.1 j =
        (alookup h j).map (fun it => it.update_state now) := by
  induction l generalizing h d with
  | nil => left; rfl
  | cons i l ih =>
    unfold purgeWhile
    cases hi : alookup h i with
    | none => left; rfl
    | some it =>
      simp only
      by_cases hp : (it.update_state now).state = CState.purged
      · rw [if_pos hp]
        rcases ih (aset h i (it.update_state now)) (adel d (it.update_state now).address)
          with h1 | h1
        · by_cases hij : i = j
          · subst hij
            rw [h1, alookup_aset_self, hi]
            right; rfl
          · left; rw [h1, alookup_aset_ne _ _ _ _ hij]
        · by_cases hij : i = j
          · subst hij
            rw [h1, alookup_aset_self, hi]
            right
            simp [update_state_idem]
          · right; rw [h1, alookup_aset_ne _ _ _ _ hij]
      · rw [if_neg hp]
        by_cases hij : i = j
        · subst hij
          rw [alookup_aset_self, hi]
          right; rfl
        · left; exact alookup_aset_ne _ _ _ _ hij

/-- `update_item` leaves the looked-up item's heap binding at exactly its
state-updated value (the possible nested compaction cannot change it
further). -/
theorem update_item_alookup (c : Cache) (now : Int) (iid : Nat) (it : CacheItem)
    (h : alookup c.iheap iid = some it) :
    alookup ((c.update_item now iid).2).iheap iid = some (it.update_state now) := by
  unfold Cache.update_item
  rw [h]
  simp only
  by_cases hp : (it.update_state now).state = CState.purged
  · rw [if_pos hp]
    by_cases hq : 4 * (c.purged + 1) > c.max_items
    · rw [if_pos hq]
      unfold Cache.purge_items
      simp only
      rcases purgeWhile_alookup now
          (popHeads (aset c.iheap iid (it.update_state now))
            ((sortItems (aset c.iheap iid (it.update_state now)) c.items_list).length -
              3 * c.max_items / 4)
            (sortItems (aset c.iheap iid (it.update_state now)) c.items_list) c.items).1
          (aset c.iheap iid (it.update_state now))
          (popHeads (aset c.iheap iid (it.update_state now))
            ((sortItems (aset c.iheap iid (it.update_state now)) c.items_list).length -
              3 * c.max_items / 4)
            (sortItems (aset c.iheap iid (it.update_state now)) c.items_list) c.items).2
          iid with h1 | h1
      · rw [h1, alookup_aset_self]
      · rw [h1, alookup_aset_self]
        simp [update_state_idem]
    · rw [if_neg hq]
      exact alookup_aset_self _ _ _
  · rw [if_neg hp]
    exact alookup_aset_self _ _ _

/-- C4: `get_item(address, s)` returns either nothing — when no item is
stored under the address, or the stored item, once advanced, is less fresh
than requested — or the stored item after advancing its state; every returned
item satisfies `state_value ≤ rank(s)`, where rank is `_state_values`
(new→0, fresh→1, old→2, stale→3, purged→3). -/
theorem C4_get_item_rank (c : Cache) (now : Int) (address : Addr) (s : CState) :
    ((c.get_item now address s).1 = none ∧
      (alookup c.items address = none ∨
       ∀ iid it, alookup c.items address = some iid →
         alookup c.iheap iid = some it →
         stateValue s < (it.update_state now).state_value))
    ∨ (∃ iid it, alookup c.items address = some iid ∧
        alookup c.iheap iid = some it ∧
        (c.get_item now address s).1 = some (it.update_state now) ∧
        (it.update_state now).state_value ≤ stateValue s) := by
  unfold Cache.get_item Cache.get_item_ref
  cases hd : alookup c.items address with
  | none => exact Or.inl ⟨rfl, Or.inl rfl⟩
  | some iid =>
    simp only
    cases hh : alookup c.iheap iid with
    | none =>
      have hsame : (c.update_item now iid).2 = c := by
        unfold Cache.update_item
        rw [hh]
      rw [hsame, hh]
      dsimp only
      refine Or.inl ⟨rfl, Or.inr ?_⟩
      intro iid' it' h1 h2
      injection h1 with h1
      subst h1
      rw [hh] at h2
      exact absurd h2 (by simp)
    | some it =>
      have hup := update_item_alookup c now iid it hh
      rw [hup]
      dsimp only
      by_cases hs : stateValue s ≥ (it.update_state now).state_value
      · rw [if_pos hs]
        refine Or.inr ⟨iid, it, rfl, hh, ?_, hs⟩
        simp [hup]
      · rw [if_neg hs]
        refine Or.inl ⟨rfl, Or.inr ?_⟩
        · intro iid' it' h1 h2
          injection h1 with h1
          subst h1
          rw [hh] at h2
          injection h2 with h2
          subst h2
          omega

theorem sortItems_perm (h : List (Nat × CacheItem)) (l : List Nat) :
    List.Perm (sortItems h l) l :=
  sortLe_perm _ l

theorem sortItems_sorted (h : List (Nat × CacheItem)) (l : List Nat) :
    SortedLe (fun i j => ikeyLe (ikey h i) (ikey h j)) (sortItems h l) :=
  sortLe_sorted (fun i j => ikeyLe (ikey h i) (ikey h j))
    (fun i j => ikeyLe_total (ikey h i) (ikey h j))
    (fun i j k hij hjk => ikeyLe_trans (ikey h i) (ikey h j) (ikey h k) hij hjk) l

theorem sortFetchers_perm (l : List (DT × Nat)) :
    List.Perm (sortFetchers l) l :=
  sortLe_perm _ l

theorem sortFetchers_sorted (l : List (DT × Nat)) :
    SortedLe fkeyLe (sortFetchers l) :=
  sortLe_sorted _ fkeyLe_total fkeyLe_trans l

/-- The `old`-state cache that refutes C5: its single item sits at address 1
in state 'old' (`state_value = 2`), well before its expiry and purge
deadlines at the probe instant 50. -/
def c5ex : Cache :=
  { max_items := 10
    default_freshness_period := 0
    default_expiration_period := 0
    default_purge_period := 0
    items := [(1, 0)]
    items_list := [0]
    iheap := [(0,
      { address := 1
        value := 5
        timestamp := 0
        freshness_time := 10
        expire_time := 100
        purge_time := ((1000 : Int) : DT)
        state := .old
        state_value := 2 })]
    fheap := []
    active_fetchers := []
    purged := 0
    fetcher_set := false
    next_id := 1 }

/-- C5 counterexample: address 1 of `c5ex` holds an item whose current
`state_value` (2, 'old') is strictly below rank('stale') = 3, yet
`invalidate_object(1, 'stale')` leaves its state at 'old': the internal
lookup runs `get_item(address)` with the default 'fresh' acceptance, which
rejects the 'old' item, so the raise never happens — contradicting the
claim that every such item is raised to the given state. -/
theorem C5_invalidate_counterexample :
    (alookup c5ex.items 1 = some 0)
    ∧ ((alookup c5ex.iheap 0).map CacheItem.state_value = some 2 ∧ 2 < stateValue .stale)
    ∧ ((alookup (Cache.invalidate_object c5ex 50 1 .stale).iheap 0).map CacheItem.state
        = some CState.old) := by
  decide

/-- C5 (amended): `invalidate_object(address, state)` raises an item's state
only when the internal lookup `get_item(address)` — whose acceptance state
defaults to 'fresh' — returns it; when it does and the item's `state_value`
is strictly below rank(state), the state is overwritten with `state`, then
re-advanced by `update_state`, and the items list re-sorted; whenever the
fresh-tolerance lookup returns nothing (in particular for every item already
'old' or worse) no state is raised and the call leaves the cache exactly as
the lookup left it — though the lookup itself may advance states and
compact. -/
theorem C5_invalidate_object_amended (c : Cache) (now : Int) (address : Addr)
    (s : CState) :
    ((c.get_item_ref now address .fresh).1 = none →
      Cache.invalidate_object c now address s = (c.get_item_ref now address .fresh).2)
    ∧ (∀ iid it, (c.get_item_ref now address .fresh).1 = some iid →
        alookup (c.get_item_ref now address .fresh).2.iheap iid = some it →
        (¬ it.state_value < stateValue s →
           Cache.invalidate_object c now address s
             = (c.get_item_ref now address .fresh).2)
        ∧ (it.state_value < stateValue s →
            alookup (Cache.invalidate_object c now address s).iheap iid
              = some (CacheItem.update_state { it with state := s } now)
            ∧ List.Perm (Cache.invalidate_object c now address s).items_list
                (c.get_item_ref now address .fresh).2.items_list
            ∧ SortedLe
                (fun i j =>
                  ikeyLe (ikey (Cache.invalidate_object c now address s).iheap i)
                    (ikey (Cache.invalidate_object c now address s).iheap j))
                (Cache.invalidate_object c now address s).items_list)) := by
  unfold Cache.invalidate_object
  dsimp only
  cases hg : (c.get_item_ref now address .fresh).1 with
  | none =>
    refine ⟨fun _ => rfl, ?_⟩
    intro iid it h1 h2
    exact absurd h1 (by simp)
  | some jid =>
    refine ⟨fun h => absurd h (by simp), ?_⟩
    intro iid it h1 h2
    injection h1 with h1
    subst h1
    dsimp only
    rw [h2]
    dsimp only
    constructor
    · intro hlt
      rw [if_neg hlt]
    · intro hlt
      rw [if_pos hlt]
      refine ⟨alookup_aset_self _ _ _, sortItems_perm _ _, ?_⟩
      exact sortItems_sorted _ _

/-- A cache holding one stale (but never-purged) item at address 1, with a
fetcher factory registered: the stage for the C10 counterexample. -/
def c10ex : Cache :=
  { max_items := 10
    default_freshness_period := 1000
    default_expiration_period := 2000
    default_purge_period := 3000
    items := [(1, 0)]
    items_list := [0]
    iheap := [(0,
      { address := 1
        value := 7
        timestamp := 0
        freshness_time := 0
        expire_time := 0
        purge_time := ⊤
        state := .stale
        state_value := 3 })]
    fheap := []
    active_fetchers := []
    purged := 0
    fetcher_set := true
    next_id := 1 }

/-- `c10ex` after `request_object(1, 'fresh', handler, error_handler=None,
backup_state='stale', timeout=100)` at instant 10: a miss (the item is
stale), so a fetcher with the default error wrapper and backup state 'stale'
is now in flight under identity 1. -/
def c10req : Cache :=
  match Cache.request_object c10ex 10 1 .fresh false false (some .stale) 100
      none none none with
  | .ok p => p.1
  | .error _ => c10ex

/-- C10 counterexample: the request behind `c10req` was made with
`error_handler` omitted (the fetcher carries the default wrapper), yet when
its fetch fails, the success callback receives the stale backup item
`(address 1, value 7, 'stale')` — not `(address, None, 'error')` as the
claim states for every request made without an explicit error handler. -/
theorem C10_default_error_counterexample :
    ((alookup c10req.fheap 1).map (fun f => f.default_error_handler) = some true)
    ∧ (CacheFetcher.error c10req 20 1 (some 0)).2
        = [Ev.objectHandler 1 (some 7) (HState.st .stale)] := by
  decide

/-- A failed backup probe emits no events. -/
theorem try_backup_item_no_events (f : CacheFetcher) (c : Cache) (now : Int) :
    (f.try_backup_item c now).1 = false → (f.try_backup_item c now).2.2 = [] := by
  unfold CacheFetcher.try_backup_item
  cases f.backup_state with
  | none => intro _; rfl
  | some bs =>
    dsimp only
    cases hg : (c.get_item now f.address bs).1 with
    | none => intro _; rfl
    | some it => intro h; exact absurd h (by simp)

/-- C10 (amended): a request with `error_handler` omitted installs the
default wrapper on its fetcher, and a fetch failure (`error()` on an active
fetcher) that delivers no backup item invokes the success callback with
value `None` and state `'error'`; so every failed request made without an
explicit error handler is delivered that way unless a configured backup item
is delivered to the same callback instead. -/
theorem C10_default_error_handler_amended
    (c : Cache) (now now2 : Int) (address : Addr) (s : CState)
    (hth : Bool) (bs : Option CState) (tmo : Int) (fp ep pp : Option Int)
    (c2 : Cache) (fid : Nat) (f : CacheFetcher) (ed : Option Nat) :
    (∀ c' evs,
       Cache.request_object c now address s false hth bs tmo fp ep pp
         = .ok (c', evs) →
       (alookup c'.fheap (c.get_item now address s).2.next_id).map
           (fun g => g.default_error_handler) = some true)
    ∧ (alookup c2.fheap fid = some f → f.active = true →
       f.default_error_handler = true →
       (f.try_backup_item c2 now2).1 = false →
       (CacheFetcher.error c2 now2 fid ed).2
         = [Ev.objectHandler f.address none HState.error]) := by
  constructor
  · intro c' evs h
    unfold Cache.request_object at h
    by_cases hf : (c.get_item now address s).2.fetcher_set = true
    · rw [if_neg (by simp [hf])] at h
      dsimp only at h
      injection h with h
      injection h with h1 h2
      subst h1
      rw [alookup_aset_self]
      rfl
    · rw [if_pos (by simpa using hf)] at h
      exact absurd h (by simp)
  · intro hlk hact hdef htb
    unfold CacheFetcher.error
    rw [hlk]
    dsimp only
    rw [if_neg (by simp [hact])]
    rw [htb]
    simp only [Bool.false_eq_true, if_false]
    rw [try_backup_item_no_events f c2 now2 htb]
    simp [CacheFetcher.dispatchError, hdef]

/-- The fields of the cache that the item-side operations (`get_item`,
`update_item`, `invalidate_object`, `purge_items`, `add_item`) never touch. -/
def FetcherFrame (c c' : Cache) : Prop :=
  c'.fheap = c.fheap
  ∧ c'.active_fetchers = c.active_fetchers
  ∧ c'.fetcher_set = c.fetcher_set
  ∧ c'.next_id = c.next_id
  ∧ c'.max_items = c.max_items
  ∧ c'.default_freshness_period = c.default_freshness_period
  ∧ c'.default_expiration_period = c.default_expiration_period
  ∧ c'.default_purge_period = c.default_purge_period

theorem fetcherFrame_refl (c : Cache) : FetcherFrame c c :=
  ⟨rfl, rfl, rfl, rfl, rfl, rfl, rfl, rfl⟩

theorem fetcherFrame_trans (a b c : Cache) (h1 : FetcherFrame a b)
    (h2 : FetcherFrame b c) : FetcherFrame a c := by
  obtain ⟨p1, p2, p3, p4, p5, p6, p7, p8⟩ := h1
  obtain ⟨q1, q2, q3, q4, q5, q6, q7, q8⟩ := h2
  exact ⟨q1.trans p1, q2.trans p2, q3.trans p3, q4.trans p4, q5.trans p5,
    q6.trans p6, q7.trans p7, q8.trans p8⟩

theorem purge_items_fetcherFrame (c : Cache) (now : Int) :
    FetcherFrame c (c.purge_items now) := by
  unfold Cache.purge_items
  exact ⟨rfl, rfl, rfl, rfl, rfl, rfl, rfl, rfl⟩

theorem update_item_fetcherFrame (c : Cache) (now : Int) (iid : Nat) :
    FetcherFrame c ((c.update_item now iid).2) := by
  unfold Cache.update_item
  cases h : alookup c.iheap iid with
  | none => exact fetcherFrame_refl c
  | some it =>
    dsimp only
    split_ifs with h1 h2
    · exact fetcherFrame_trans _ _ _ (fetcherFrame_refl _)
        (purge_items_fetcherFrame _ now)
    · exact fetcherFrame_refl _
    · exact fetcherFrame_refl _

theorem get_item_ref_fetcherFrame (c : Cache) (now : Int) (address : Addr)
    (s : CState) : FetcherFrame c ((c.get_item_ref now address s).2) := by
  unfold Cache.get_item_ref
  cases hd : alookup c.items address with
  | none => exact fetcherFrame_refl c
  | some iid =>
    dsimp only
    cases hh : alookup ((c.update_item now iid).2).iheap iid with
    | none => exact update_item_fetcherFrame c now iid
    | some it =>
      dsimp only
      split_ifs <;> exact update_item_fetcherFrame c now iid

theorem get_item_fetcherFrame (c : Cache) (now : Int) (address : Addr)
    (s : CState) : FetcherFrame c ((c.get_item now address s).2) :=
  get_item_ref_fetcherFrame c now address s

theorem invalidate_object_fetcherFrame (c : Cache) (now : Int) (address : Addr)
    (s : CState) : FetcherFrame c (c.invalidate_object now address s) := by
  unfold Cache.invalidate_object
  dsimp only
  cases hg : (c.get_item_ref now address .fresh).1 with
  | none => exact get_item_ref_fetcherFrame c now address .fresh
  | some iid =>
    dsimp only
    cases hh : alookup ((c.get_item_ref now address .fresh).2).iheap iid with
    | none => exact get_item_ref_fetcherFrame c now address .fresh
    | some it =>
      dsimp only
      split_ifs
      · exact fetcherFrame_trans _ _ _ (get_item_ref_fetcherFrame c now address .fresh)
          (fetcherFrame_refl _)
      · exact get_item_ref_fetcherFrame c now address .fresh

theorem add_item_fetcherFrame (c : Cache) (now : Int) (item : CacheItem) :
    (((c.add_item now item).2).fheap = c.fheap
      ∧ ((c.add_item now item).2).active_fetchers = c.active_fetchers
      ∧ ((c.add_item now item).2).fetcher_set = c.fetcher_set
      ∧ ((c.add_item now item).2).next_id = c.next_id + 1) := by
  unfold Cache.add_item
  dsimp only
  split_ifs with h1 h2
  · refine ⟨?_, ?_, ?_, ?_⟩ <;>
      simp [(purge_items_fetcherFrame _ now).1, (purge_items_fetcherFrame _ now).2.1,
        (purge_items_fetcherFrame _ now).2.2.1, (purge_items_fetcherFrame _ now).2.2.2.1]
  · exact ⟨rfl, rfl, rfl, rfl⟩
  · exact ⟨rfl, rfl, rfl, rfl⟩

/-- C1: a `request_object` hit invokes `object_handler` synchronously with
the cached item's address, value and state; in every successful call, hit or
miss, a fetcher is then still constructed with the given (or default)
periods, its `fetch()` is called (after the hit delivery), and
`(timeout_time, fetcher)` joins `active_fetchers`, which is kept sorted;
without a registered fetcher factory the call fails — the source's
`TypeError: No cache fetcher defined`, the spec's ConfigurationError. -/
theorem C1_request_object (c : Cache) (now : Int) (address : Addr) (s : CState)
    (eh hth : Bool) (bs : Option CState) (tmo : Int) (fp ep pp : Option Int) :
    (c.fetcher_set = false →
      Cache.request_object c now address s eh hth bs tmo fp ep pp
        = .error .configuration_error)
    ∧ (c.fetcher_set = true →
      ∃ c', Cache.request_object c now address s eh hth bs tmo fp ep pp
          = .ok (c',
              (match (c.get_item now address s).1 with
               | some it =>
                 [Ev.objectHandler it.address (some it.value) (HState.st it.state)]
               | none => []) ++ [Ev.fetchCalled address])
        ∧ alookup c'.fheap (c.get_item now address s).2.next_id
            = some (CacheFetcher.init now address
                (fp.getD c.default_freshness_period)
                (ep.getD c.default_expiration_period)
                (pp.getD c.default_purge_period) (!eh) hth bs tmo)
        ∧ ((CacheFetcher.init now address (fp.getD c.default_freshness_period)
              (ep.getD c.default_expiration_period)
              (pp.getD c.default_purge_period) (!eh) hth bs tmo).timeout_time,
            (c.get_item now address s).2.next_id) ∈ c'.active_fetchers
        ∧ SortedLe fkeyLe c'.active_fetchers
        ∧ List.Perm c'.active_fetchers
            ((c.get_item now address s).2.active_fetchers
              ++ [((CacheFetcher.init now address
                      (fp.getD c.default_freshness_period)
                      (ep.getD c.default_expiration_period)
                      (pp.getD c.default_purge_period) (!eh) hth bs tmo).timeout_time,
                  (c.get_item now address s).2.next_id)])) := by
  obtain ⟨-, -, hset, -, -, hdf, hde, hdp⟩ :=
    get_item_fetcherFrame c now address s
  constructor
  · intro h
    unfold Cache.request_object
    rw [if_pos]
    rw [hset, h]
    simp
  · intro h
    unfold Cache.request_object
    rw [if_neg]
    · refine ⟨_, rfl, ?_, ?_, ?_, ?_⟩
      · rw [hdf, hde, hdp]
        exact alookup_aset_self _ _ _
      · rw [hdf, hde, hdp]
        refine (sortFetchers_perm _).mem_iff.mpr ?_
        exact List.mem_append_right _ (List.mem_singleton.mpr rfl)
      · exact sortFetchers_sorted _
      · rw [hdf, hde, hdp]
        exact sortFetchers_perm _
    · rw [hset, h]
      simp

theorem try_backup_fetcherFrame (f : CacheFetcher) (c : Cache) (now : Int) :
    FetcherFrame c ((f.try_backup_item c now).2.1) := by
  unfold CacheFetcher.try_backup_item
  cases f.backup_state with
  | none => exact fetcherFrame_refl c
  | some bs =>
    dsimp only
    cases hg : (c.get_item now f.address bs).1 with
    | none => exact get_item_fetcherFrame c now f.address bs
    | some it => exact get_item_fetcherFrame c now f.address bs

theorem eraseFirstFid_not_mem (l : List (DT × Nat)) (fid : Nat)
    (h : (l.map (fun p => p.2)).Nodup) :
    ∀ p ∈ eraseFirstFid l fid, p.2 ≠ fid := by
  induction l with
  | nil => intro p hp; simp [eraseFirstFid] at hp
  | cons q l ih =>
    have hnd : q.2 ∉ l.map (fun p => p.2) ∧ (l.map (fun p => p.2)).Nodup := by
      rw [List.map_cons, List.nodup_cons] at h
      exact h
    intro p hp
    unfold eraseFirstFid at hp
    by_cases hq : q.2 = fid
    · rw [if_pos hq] at hp
      intro hfid
      exact hnd.1 (hq ▸ hfid ▸ List.mem_map.mpr ⟨p, hp, rfl⟩)
    · rw [if_neg hq] at hp
      rcases List.mem_cons.mp hp with rfl | hp
      · exact hq
      · exact ih hnd.2 p hp

theorem remove_fetcher_eq_pos_some (c : Cache) (fid : Nat) (f : CacheFetcher)
    (hin : c.active_fetchers.any (fun p => p.2 = fid) = true)
    (hlk : alookup c.fheap fid = some f) :
    Cache.remove_fetcher c fid
      = { c with active_fetchers := eraseFirstFid c.active_fetchers fid,
                 fheap := aset c.fheap fid { f with active := false } } := by
  unfold Cache.remove_fetcher
  rw [if_pos hin]
  dsimp only
  rw [hlk]

theorem remove_fetcher_eq_pos_none (c : Cache) (fid : Nat)
    (hin : c.active_fetchers.any (fun p => p.2 = fid) = true)
    (hlk : alookup c.fheap fid = none) :
    Cache.remove_fetcher c fid
      = { c with active_fetchers := eraseFirstFid c.active_fetchers fid } := by
  unfold Cache.remove_fetcher
  rw [if_pos hin]
  dsimp only
  rw [hlk]

theorem remove_fetcher_eq_neg (c : Cache) (fid : Nat)
    (hin : c.active_fetchers.any (fun p => p.2 = fid) = false) :
    Cache.remove_fetcher c fid = c := by
  unfold Cache.remove_fetcher
  rw [if_neg (by simp [hin])]

theorem deactivate_active_fetchers (c : Cache) (fid : Nat) :
    (CacheFetcher.deactivate c fid).active_fetchers
        = eraseFirstFid c.active_fetchers fid
    ∨ ((CacheFetcher.deactivate c fid).active_fetchers = c.active_fetchers
        ∧ c.active_fetchers.any (fun p => p.2 = fid) = false) := by
  unfold CacheFetcher.deactivate
  by_cases hin : c.active_fetchers.any (fun p => p.2 = fid) = true
  · left
    cases hlk : alookup c.fheap fid with
    | none =>
      rw [remove_fetcher_eq_pos_none c fid hin hlk]
      dsimp only
      rw [hlk]
    | some f =>
      rw [remove_fetcher_eq_pos_some c fid f hin hlk]
      dsimp only
      rw [alookup_aset_self]
      dsimp only
      rw [if_neg (by simp)]
  · right
    have hin2 : c.active_fetchers.any (fun p => p.2 = fid) = false :=
      Bool.eq_false_iff.mpr hin
    refine ⟨?_, hin2⟩
    rw [remove_fetcher_eq_neg c fid hin2]
    dsimp only
    cases hlk : alookup c.fheap fid with
    | none => rfl
    | some f =>
      dsimp only
      by_cases hf : f.active = true
      · rw [if_pos hf]
      · rw [if_neg hf]

theorem deactivate_not_listed (c : Cache) (fid : Nat)
    (hnd : (c.active_fetchers.map (fun p => p.2)).Nodup) :
    ∀ p ∈ (CacheFetcher.deactivate c fid).active_fetchers, p.2 ≠ fid := by
  rcases deactivate_active_fetchers c fid with h | ⟨h, hany⟩
  · rw [h]
    exact eraseFirstFid_not_mem _ _ hnd
  · rw [h]
    intro p hp hfid
    rw [List.any_eq_false] at hany
    exact absurd (by simpa using hfid) (by simpa using hany p hp)

theorem deactivate_fheap (c : Cache) (fid : Nat) (f : CacheFetcher)
    (hlk : alookup c.fheap fid = some f) :
    alookup (CacheFetcher.deactivate c fid).fheap fid
      = some { f with active := false } := by
  unfold CacheFetcher.deactivate
  by_cases hin : c.active_fetchers.any (fun p => p.2 = fid) = true
  · rw [remove_fetcher_eq_pos_some c fid f hin hlk]
    dsimp only
    rw [alookup_aset_self]
    dsimp only
    rw [if_neg (by simp)]
    exact alookup_aset_self _ _ _
  · have hin2 : c.active_fetchers.any (fun p => p.2 = fid) = false :=
      Bool.eq_false_iff.mpr hin
    rw [remove_fetcher_eq_neg c fid hin2]
    dsimp only
    rw [hlk]
    dsimp only
    by_cases hf : f.active = true
    · rw [if_pos hf]
      exact alookup_aset_self _ _ _
    · rw [if_neg hf]
      have hfeq : f = { f with active := false } := by
        cases f
        simp_all
      rw [hlk, ← hfeq]

theorem error_noop (c : Cache) (now : Int) (fid : Nat) (f : CacheFetcher)
    (ed : Option Nat) (hlk : alookup c.fheap fid = some f)
    (hact : f.active = false) :
    CacheFetcher.error c now fid ed = (c, []) := by
  unfold CacheFetcher.error
  rw [hlk]
  dsimp only
  rw [if_pos (by simp [hact])]

theorem timeout_noop (c : Cache) (now : Int) (fid : Nat) (f : CacheFetcher)
    (hlk : alookup c.fheap fid = some f) (hact : f.active = false) :
    CacheFetcher.timeout c now fid = (c, []) := by
  unfold CacheFetcher.timeout
  rw [hlk]
  dsimp only
  rw [if_pos (by simp [hact])]

theorem got_it_noop (c : Cache) (now : Int) (fid : Nat) (f : CacheFetcher)
    (v : Val) (st : CState) (hlk : alookup c.fheap fid = some f)
    (hact : f.active = false) :
    CacheFetcher.got_it c now fid v st = .ok (c, []) := by
  unfold CacheFetcher.got_it
  rw [hlk]
  dsimp only
  rw [if_pos (by simp [hact])]

theorem error_post (c : Cache) (now : Int) (fid : Nat) (f : CacheFetcher)
    (ed : Option Nat) (hlk : alookup c.fheap fid = some f)
    (hact : f.active = true)
    (hnd : (c.active_fetchers.map (fun p => p.2)).Nodup) :
    alookup (CacheFetcher.error c now fid ed).1.fheap fid
        = some { f with active := false }
    ∧ ∀ p ∈ (CacheFetcher.error c now fid ed).1.active_fetchers, p.2 ≠ fid := by
  unfold CacheFetcher.error
  rw [hlk]
  dsimp only
  rw [if_neg (by simp [hact])]
  dsimp only
  have hframe : FetcherFrame c
      (((f.try_backup_item c now).2.1).invalidate_object now f.address .stale) :=
    fetcherFrame_trans _ _ _ (try_backup_fetcherFrame f c now)
      (invalidate_object_fetcherFrame _ now f.address .stale)
  obtain ⟨hf, ha, -, -, -, -, -, -⟩ := hframe
  exact ⟨deactivate_fheap _ fid f (by rw [hf]; exact hlk),
    deactivate_not_listed _ fid (by rw [ha]; exact hnd)⟩

theorem timeout_post (c : Cache) (now : Int) (fid : Nat) (f : CacheFetcher)
    (hlk : alookup c.fheap fid = some f) (hact : f.active = true)
    (hnd : (c.active_fetchers.map (fun p => p.2)).Nodup) :
    alookup (CacheFetcher.timeout c now fid).1.fheap fid
        = some { f with active := false }
    ∧ ∀ p ∈ (CacheFetcher.timeout c now fid).1.active_fetchers, p.2 ≠ fid := by
  unfold CacheFetcher.timeout
  rw [hlk]
  dsimp only
  rw [if_neg (by simp [hact])]
  dsimp only
  have hframe : FetcherFrame c
      (((f.try_backup_item c now).2.1).invalidate_object now f.address .stale) :=
    fetcherFrame_trans _ _ _ (try_backup_fetcherFrame f c now)
      (invalidate_object_fetcherFrame _ now f.address .stale)
  obtain ⟨hf, ha, -, -, -, -, -, -⟩ := hframe
  exact ⟨deactivate_fheap _ fid f (by rw [hf]; exact hlk),
    deactivate_not_listed _ fid (by rw [ha]; exact hnd)⟩

theorem got_it_post (c : Cache) (now : Int) (fid : Nat) (f : CacheFetcher)
    (v : Val) (st : CState) (c' : Cache) (evs : List Ev)
    (hlk : alookup c.fheap fid = some f) (hact : f.active = true)
    (hnd : (c.active_fetchers.map (fun p => p.2)).Nodup)
    (h : CacheFetcher.got_it c now fid v st = .ok (c', evs)) :
    alookup c'.fheap fid = some { f with active := false }
    ∧ ∀ p ∈ c'.active_fetchers, p.2 ≠ fid := by
  unfold CacheFetcher.got_it at h
  rw [hlk] at h
  dsimp only at h
  rw [if_neg (by simp [hact])] at h
  cases hit : CacheItem.init now f.address v f.item_freshness_period
      f.item_expiration_period f.item_purge_period st with
  | none =>
    rw [hit] at h
    exact absurd h (by simp)
  | some item =>
    rw [hit] at h
    dsimp only at h
    injection h with h
    injection h with h1 h2
    subst h1
    obtain ⟨hf, ha, -, -⟩ := add_item_fetcherFrame c now item
    exact ⟨deactivate_fheap _ fid f (by rw [hf]; exact hlk),
      deactivate_not_listed _ fid (by rw [ha]; exact hnd)⟩

theorem deactivate_unlisted_active_fetchers (c : Cache) (fid : Nat)
    (hany : c.active_fetchers.any (fun p => p.2 = fid) = false) :
    (CacheFetcher.deactivate c fid).active_fetchers = c.active_fetchers := by
  unfold CacheFetcher.deactivate
  rw [remove_fetcher_eq_neg c fid hany]
  dsimp only
  cases hlk : alookup c.fheap fid with
  | none => rfl
  | some f =>
    dsimp only
    by_cases hf : f.active = true
    · rw [if_pos hf]
    · rw [if_neg hf]

theorem deactivate_idem (c : Cache) (fid : Nat) (f : CacheFetcher)
    (hlk : alookup c.fheap fid = some f)
    (hnd : (c.active_fetchers.map (fun p => p.2)).Nodup) :
    CacheFetcher.deactivate (CacheFetcher.deactivate c fid) fid
      = CacheFetcher.deactivate c fid := by
  have hnl := deactivate_not_listed c fid hnd
  have hany : (CacheFetcher.deactivate c fid).active_fetchers.any
      (fun p => p.2 = fid) = false := by
    rw [List.any_eq_false]
    intro p hp
    simpa using hnl p hp
  have hb := deactivate_fheap c fid f hlk
  set d := CacheFetcher.deactivate c fid with hd
  show CacheFetcher.deactivate d fid = d
  unfold CacheFetcher.deactivate
  rw [remove_fetcher_eq_neg d fid hany]
  dsimp only
  rw [hb]
  dsimp only
  rw [if_neg (by simp)]

/-- C3: at most one terminal callback per fetcher lifetime.  A terminal call
(`got_it`, `error`, `timeout`) on an inactive fetcher is a no-op emitting no
events; a terminal call on an active fetcher leaves it inactive and unlinked
from `active_fetchers`, so any later terminal call is a no-op; and the
deactivation sequence still deactivates — changing nothing else — when the
cache no longer lists the fetcher, and running it again changes nothing. -/
theorem C3_terminal_callback_once (c : Cache) (now now2 : Int) (fid : Nat)
    (f : CacheFetcher) (ed ed2 : Option Nat) (v v2 : Val) (st st2 : CState)
    (hlk : alookup c.fheap fid = some f)
    (hnd : (c.active_fetchers.map (fun p => p.2)).Nodup) :
    (f.active = false →
       CacheFetcher.error c now fid ed = (c, [])
       ∧ CacheFetcher.timeout c now fid = (c, [])
       ∧ CacheFetcher.got_it c now fid v st = .ok (c, []))
    ∧ (f.active = true →
       (alookup (CacheFetcher.error c now fid ed).1.fheap fid
           = some { f with active := false }
        ∧ (∀ p ∈ (CacheFetcher.error c now fid ed).1.active_fetchers, p.2 ≠ fid)
        ∧ CacheFetcher.error (CacheFetcher.error c now fid ed).1 now2 fid ed2
            = ((CacheFetcher.error c now fid ed).1, [])
        ∧ CacheFetcher.timeout (CacheFetcher.error c now fid ed).1 now2 fid
            = ((CacheFetcher.error c now fid ed).1, [])
        ∧ CacheFetcher.got_it (CacheFetcher.error c now fid ed).1 now2 fid v2 st2
            = .ok ((CacheFetcher.error c now fid ed).1, []))
       ∧ (alookup (CacheFetcher.timeout c now fid).1.fheap fid
           = some { f with active := false }
        ∧ (∀ p ∈ (CacheFetcher.timeout c now fid).1.active_fetchers, p.2 ≠ fid)
        ∧ CacheFetcher.timeout (CacheFetcher.timeout c now fid).1 now2 fid
            = ((CacheFetcher.timeout c now fid).1, []))
       ∧ (∀ c' evs, CacheFetcher.got_it c now fid v st = .ok (c', evs) →
           alookup c'.fheap fid = some { f with active := false }
           ∧ (∀ p ∈ c'.active_fetchers, p.2 ≠ fid)
           ∧ CacheFetcher.got_it c' now2 fid v2 st2 = .ok (c', [])
           ∧ CacheFetcher.error c' now2 fid ed2 = (c', [])
           ∧ CacheFetcher.timeout c' now2 fid = (c', [])))
    ∧ ((∀ p ∈ c.active_fetchers, p.2 ≠ fid) →
       alookup (CacheFetcher.deactivate c fid).fheap fid
           = some { f with active := false }
       ∧ (CacheFetcher.deactivate c fid).active_fetchers = c.active_fetchers
       ∧ CacheFetcher.deactivate (CacheFetcher.deactivate c fid) fid
           = CacheFetcher.deactivate c fid) := by
  refine ⟨?_, ?_, ?_⟩
  · intro hact
    exact ⟨error_noop c now fid f ed hlk hact,
      timeout_noop c now fid f hlk hact,
      got_it_noop c now fid f v st hlk hact⟩
  · intro hact
    refine ⟨?_, ?_, ?_⟩
    · obtain ⟨h1, h2⟩ := error_post c now fid f ed hlk hact hnd
      exact ⟨h1, h2,
        error_noop _ now2 fid _ ed2 h1 rfl,
        timeout_noop _ now2 fid _ h1 rfl,
        got_it_noop _ now2 fid _ v2 st2 h1 rfl⟩
    · obtain ⟨h1, h2⟩ := timeout_post c now fid f hlk hact hnd
      exact ⟨h1, h2, timeout_noop _ now2 fid _ h1 rfl⟩
    · intro c' evs h
      obtain ⟨h1, h2⟩ := got_it_post c now fid f v st c' evs hlk hact hnd h
      exact ⟨h1, h2,
        got_it_noop _ now2 fid _ v2 st2 h1 rfl,
        error_noop _ now2 fid _ ed2 h1 rfl,
        timeout_noop _ now2 fid _ h1 rfl⟩
  · intro hun
    have hany : c.active_fetchers.any (fun p => p.2 = fid) = false := by
      rw [List.any_eq_false]
      intro p hp
      simpa using hun p hp
    exact ⟨deactivate_fheap c fid f hlk,
      deactivate_unlisted_active_fetchers c fid hany,
      deactivate_idem c fid f hlk hnd⟩

/-- The active fetcher used to witness the hypotheses of the terminal-callback
theorem. -/
def fwit : CacheFetcher :=
  { address := 1
    item_freshness_period := 10
    item_expiration_period := 20
    item_purge_period := 30
    default_error_handler := true
    has_timeout_handler := false
    backup_state := none
    timeout_time := ((100 : Int) : DT)
    active := true }

/-- A cache with exactly the one active fetcher `fwit` in flight. -/
def c3w : Cache :=
  { max_items := 4
    default_freshness_period := 10
    default_expiration_period := 20
    default_purge_period := 30
    items := []
    items_list := []
    iheap := []
    fheap := [(0, fwit)]
    active_fetchers := [(((100 : Int) : DT), 0)]
    purged := 0
    fetcher_set := true
    next_id := 1 }

/-- Witness for C3 at a concrete cache: after `error()` fires once on the
active fetcher of `c3w`, a second `error()` is a no-op. -/
theorem C3_terminal_callback_once_witness :
    CacheFetcher.error (CacheFetcher.error c3w 5 0 (some 1)).1 6 0 (some 2)
      = ((CacheFetcher.error c3w 5 0 (some 1)).1, []) := by
  have h := C3_terminal_callback_once c3w 5 6 0 fwit (some 1) (some 2) 3 4
    CState.new CState.fresh (by decide) (by decide)
  exact (h.2.1 (by decide)).1.2.2.1

theorem eraseFirstFid_eq_self (l : List (DT × Nat)) (fid : Nat)
    (hany : l.any (fun p => p.2 = fid) = false) :
    eraseFirstFid l fid = l := by
  induction l with
  | nil => rfl
  | cons q l ih =>
    rw [List.any_cons, Bool.or_eq_false_iff] at hany
    unfold eraseFirstFid
    rw [if_neg (by simpa using hany.1)]
    rw [ih hany.2]

theorem deactivate_active_fetchers_eq (c : Cache) (fid : Nat) :
    (CacheFetcher.deactivate c fid).active_fetchers
      = eraseFirstFid c.active_fetchers fid := by
  rcases deactivate_active_fetchers c fid with h | ⟨h, hany⟩
  · exact h
  · rw [h, eraseFirstFid_eq_self _ _ hany]

theorem deactivate_fheap_ne (c : Cache) (fid j : Nat) (hne : ¬ fid = j) :
    alookup (CacheFetcher.deactivate c fid).fheap j = alookup c.fheap j := by
  unfold CacheFetcher.deactivate
  by_cases hin : c.active_fetchers.any (fun p => p.2 = fid) = true
  · cases hlk : alookup c.fheap fid with
    | none =>
      rw [remove_fetcher_eq_pos_none c fid hin hlk]
      dsimp only
      rw [hlk]
    | some f =>
      rw [remove_fetcher_eq_pos_some c fid f hin hlk]
      dsimp only
      rw [alookup_aset_self]
      dsimp only
      rw [if_neg (by simp)]
      exact alookup_aset_ne _ _ _ _ hne
  · have hin2 : c.active_fetchers.any (fun p => p.2 = fid) = false :=
      Bool.eq_false_iff.mpr hin
    rw [remove_fetcher_eq_neg c fid hin2]
    dsimp only
    cases hlk : alookup c.fheap fid with
    | none => rfl
    | some f =>
      dsimp only
      by_cases hf : f.active = true
      · rw [if_pos hf]
        exact alookup_aset_ne _ _ _ _ hne
      · rw [if_neg hf]

theorem timeout_active_fetchers (c : Cache) (now : Int) (fid : Nat)
    (f : CacheFetcher) (hlk : alookup c.fheap fid = some f)
    (hact : f.active = true) :
    (CacheFetcher.timeout c now fid).1.active_fetchers
      = eraseFirstFid c.active_fetchers fid := by
  unfold CacheFetcher.timeout
  rw [hlk]
  dsimp only
  rw [if_neg (by simp [hact])]
  dsimp only
  have hframe : FetcherFrame c
      (((f.try_backup_item c now).2.1).invalidate_object now f.address .stale) :=
    fetcherFrame_trans _ _ _ (try_backup_fetcherFrame f c now)
      (invalidate_object_fetcherFrame _ now f.address .stale)
  rw [deactivate_active_fetchers_eq, hframe.2.1]

theorem timeout_fheap_ne (c : Cache) (now : Int) (fid j : Nat) (hne : ¬ fid = j) :
    alookup (CacheFetcher.timeout c now fid).1.fheap j = alookup c.fheap j := by
  unfold CacheFetcher.timeout
  cases hlk : alookup c.fheap fid with
  | none => rfl
  | some f =>
    dsimp only
    by_cases hact : f.active = true
    · rw [if_neg (by simp [hact])]
      dsimp only
      have hframe : FetcherFrame c
          (((f.try_backup_item c now).2.1).invalidate_object now f.address .stale) :=
        fetcherFrame_trans _ _ _ (try_backup_fetcherFrame f c now)
          (invalidate_object_fetcherFrame _ now f.address .stale)
      rw [deactivate_fheap_ne _ _ _ hne, hframe.1]
    · rw [if_pos (by simpa using hact)]

/-- The tick sweep, run over a snapshot `todo` equal to the live list: it
removes exactly the leading run of overdue fetchers, leaving the entries with
`timeout_time` strictly beyond `now`. -/
theorem tickAux_filter (now : Int) (todo : List (DT × Nat)) :
    ∀ c : Cache, c.active_fetchers = todo →
    todo.Pairwise (fun p q => p.1 ≤ q.1) →
    (∀ p ∈ todo, (alookup c.fheap p.2).map (fun f => f.active) = some true) →
    (todo.map (fun p => p.2)).Nodup →
    (Cache.tickAux now todo c).1.active_fetchers
      = todo.filter (fun p => decide ((now : DT) < p.1)) := by
  induction todo with
  | nil =>
    intro c heq _ _ _
    exact heq
  | cons p rest ih =>
    intro c heq hsorted hact hnd
    obtain ⟨t, fid⟩ := p
    unfold Cache.tickAux
    by_cases hlt : (now : DT) < t
    · rw [if_pos hlt]
      rw [heq]
      have hall : ∀ q ∈ (t, fid) :: rest, (fun p => decide ((now : DT) < p.1)) q
          = true := by
        intro q hq
        rcases List.mem_cons.mp hq with rfl | hq
        · simpa using hlt
        · have := (List.pairwise_cons.mp hsorted).1 q hq
          simp only [decide_eq_true_eq]
          exact lt_of_lt_of_le hlt this
      rw [List.filter_eq_self.mpr hall]
    · rw [if_neg hlt]
      dsimp only
      have hmem : (t, fid) ∈ (t, fid) :: rest := List.mem_cons_self _ _
      have hh := hact (t, fid) hmem
      cases hlk : alookup c.fheap fid with
      | none => rw [hlk] at hh; exact absurd hh (by simp)
      | some f =>
        rw [hlk] at hh
        have hactf : f.active = true := by
          simpa using hh
        have hndc : fid ∉ rest.map (fun p => p.2)
            ∧ (rest.map (fun p => p.2)).Nodup := by
          have h := hnd
          rw [List.map_cons, List.nodup_cons] at h
          exact h
        have h1 : (CacheFetcher.timeout c now fid).1.active_fetchers = rest := by
          rw [timeout_active_fetchers c now fid f hlk hactf, heq]
          unfold eraseFirstFid
          rw [if_pos rfl]
        have h2 : ∀ q ∈ rest,
            (alookup (CacheFetcher.timeout c now fid).1.fheap q.2).map
              (fun f => f.active) = some true := by
          intro q hq
          have hne : ¬ fid = q.2 := by
            intro hcontra
            exact hndc.1 (hcontra ▸ List.mem_map.mpr ⟨q, hq, rfl⟩)
          rw [timeout_fheap_ne c now fid q.2 hne]
          exact hact q (List.mem_cons_of_mem _ hq)
        have := ih (CacheFetcher.timeout c now fid).1 h1
          (List.pairwise_cons.mp hsorted).2 h2 hndc.2
        rw [this, List.filter_cons]
        simp [hlt]

/-- C2: after `tick()`, every fetcher remaining in `active_fetchers` has
`timeout_time` strictly greater than the current time — the sweep removes
exactly the leading overdue entries (each receiving its `timeout()`), stops
at the first not-yet-expired one, and the final state is `purge_items`
applied to the post-sweep state.  The hypotheses are the cache's standing
invariants: `active_fetchers` sorted by deadline, every listed fetcher
active, no fetcher listed twice. -/
theorem C2_tick_expires (c : Cache) (now : Int)
    (hsorted : c.active_fetchers.Pairwise (fun p q => p.1 ≤ q.1))
    (hact : ∀ p ∈ c.active_fetchers,
      (alookup c.fheap p.2).map (fun f => f.active) = some true)
    (hnd : (c.active_fetchers.map (fun p => p.2)).Nodup) :
    (Cache.tick c now).1.active_fetchers
        = c.active_fetchers.filter (fun p => decide ((now : DT) < p.1))
    ∧ (∀ p ∈ (Cache.tick c now).1.active_fetchers, (now : DT) < p.1)
    ∧ (Cache.tick c now).1
        = ((Cache.tickAux now c.active_fetchers c).1).purge_items now := by
  have hmain : (Cache.tick c now).1.active_fetchers
      = c.active_fetchers.filter (fun p => decide ((now : DT) < p.1)) := by
    show ((Cache.tickAux now c.active_fetchers c).1.purge_items now).active_fetchers
      = _
    rw [(purge_items_fetcherFrame _ now).2.1]
    exact tickAux_filter now c.active_fetchers c rfl hsorted hact hnd
  refine ⟨hmain, ?_, rfl⟩
  intro p hp
  rw [hmain] at hp
  simpa using (List.mem_filter.mp hp).2

/-- A cache with two active fetchers, deadlines 10 and 100: ticking at
instant 50 must retire the first and keep the second. -/
def c2w : Cache :=
  { max_items := 4
    default_freshness_period := 10
    default_expiration_period := 20
    default_purge_period := 30
    items := []
    items_list := []
    iheap := []
    fheap := [(0, { fwit with timeout_time := ((10 : Int) : DT) }),
              (1, { fwit with address := 2, timeout_time := ((100 : Int) : DT) })]
    active_fetchers := [(((10 : Int) : DT), 0), (((100 : Int) : DT), 1)]
    purged := 0
    fetcher_set := true
    next_id := 2 }

/-- Witness for C2 at `c2w`: after `tick(50)` only the deadline-100 fetcher
remains. -/
theorem C2_tick_expires_witness :
    (Cache.tick c2w 50).1.active_fetchers = [(((100 : Int) : DT), 1)] := by
  have h := C2_tick_expires c2w 50 (by decide) (by decide) (by decide)
  rw [h.1]
  decide

/-- Address of the item bound to identity `i` (0 for a dangling identity,
which the modelled API never stores). -/
def addrOf (h : List (Nat × CacheItem)) (i : Nat) : Addr :=
  match alookup h i with
  | some it => it.address
  | none => 0

/-- The addresses of the items in `_items_list`, in list order. -/
def addrsOf (c : Cache) : List Addr := c.items_list.map (addrOf c.iheap)

/-- The item-side well-formedness of a `(items_list, iheap, items)` triple:
the dict keys are exactly the listed addresses, no address is listed twice,
every listed identity is bound in the heap, and every listed identity is
below the allocation counter. -/
def TInv (nid : Nat) (l : List Nat) (h : List (Nat × CacheItem))
    (d : List (Addr × Nat)) : Prop :=
  (∀ a ∈ d.map (fun p => p.1), a ∈ l.map (addrOf h))
  ∧ (∀ a ∈ l.map (addrOf h), a ∈ d.map (fun p => p.1))
  ∧ (l.map (addrOf h)).Nodup
  ∧ (∀ i ∈ l, (alookup h i).isSome = true)
  ∧ (∀ i ∈ l, i < nid)

/-- The invariant of claim C6, plus the bookkeeping that makes it
maintainable: key set equality, distinct stored addresses, bound and fresh
identities, and the size bound. -/
def CacheInv (c : Cache) : Prop :=
  TInv c.next_id c.items_list c.iheap c.items
  ∧ c.items_list.length ≤ c.max_items

theorem update_state_address (it : CacheItem) (now : Int) :
    (it.update_state now).address = it.address := rfl

theorem tInv_mono (nid nid' : Nat) (l : List Nat) (h : List (Nat × CacheItem))
    (d : List (Addr × Nat)) (hle : nid ≤ nid') (ht : TInv nid l h d) :
    TInv nid' l h d := by
  obtain ⟨t1, t2, t3, t4, t5⟩ := ht
  exact ⟨t1, t2, t3, t4, fun i hi => lt_of_lt_of_le (t5 i hi) hle⟩

theorem tInv_perm (nid : Nat) (l l' : List Nat) (h : List (Nat × CacheItem))
    (d : List (Addr × Nat)) (hp : List.Perm l' l) (ht : TInv nid l h d) :
    TInv nid l' h d := by
  obtain ⟨t1, t2, t3, t4, t5⟩ := ht
  have hmp : List.Perm (l'.map (addrOf h)) (l.map (addrOf h)) := hp.map _
  exact ⟨fun a ha => hmp.mem_iff.mpr (t1 a ha),
    fun a ha => t2 a (hmp.mem_iff.mp ha),
    (List.Perm.nodup_iff hmp).mpr t3,
    fun i hi => t4 i (hp.mem_iff.mp hi),
    fun i hi => t5 i (hp.mem_iff.mp hi)⟩

/-- Updating a bound identity with an item of the same address changes no
listed address and no binding presence. -/
theorem addrOf_aset_same (h : List (Nat × CacheItem)) (i : Nat)
    (it it2 : CacheItem) (hlk : alookup h i = some it)
    (haddr : it2.address = it.address) :
    ∀ j, addrOf (aset h i it2) j = addrOf h j := by
  intro j
  by_cases hij : i = j
  · subst hij
    unfold addrOf
    rw [alookup_aset_self, hlk]
    dsimp only
    exact haddr
  · unfold addrOf
    rw [alookup_aset_ne _ _ _ _ hij]

theorem tInv_aset_same (nid : Nat) (l : List Nat) (h : List (Nat × CacheItem))
    (d : List (Addr × Nat)) (i : Nat) (it it2 : CacheItem)
    (hlk : alookup h i = some it) (haddr : it2.address = it.address)
    (ht : TInv nid l h d) : TInv nid l (aset h i it2) d := by
  obtain ⟨t1, t2, t3, t4, t5⟩ := ht
  have hmap : l.map (addrOf (aset h i it2)) = l.map (addrOf h) :=
    List.map_congr_left (fun j _ => addrOf_aset_same h i it it2 hlk haddr j)
  refine ⟨fun a ha => by rw [hmap]; exact t1 a ha,
    fun a ha => t2 a (by rw [hmap] at ha; exact ha),
    by rw [hmap]; exact t3, ?_, t5⟩
  intro j hj
  by_cases hij : i = j
  · subst hij
    rw [alookup_aset_self]
    rfl
  · rw [alookup_aset_ne _ _ _ _ hij]
    exact t4 j hj

theorem mem_keys_adel {β : Type} (d : List (Nat × β)) (k a : Nat) :
    (a ∈ (adel d k).map (fun p => p.1))
      ↔ (a ∈ d.map (fun p => p.1) ∧ a ≠ k) := by
  simp only [adel, List.mem_map, List.mem_filter]
  constructor
  · rintro ⟨p, ⟨hpd, hpk⟩, rfl⟩
    exact ⟨⟨p, hpd, rfl⟩, by simpa using hpk⟩
  · rintro ⟨⟨p, hpd, rfl⟩, hak⟩
    exact ⟨p, ⟨hpd, by simpa using hak⟩, rfl⟩

theorem mem_keys_aput {β : Type} (d : List (Nat × β)) (k : Nat) (v : β) (a : Nat) :
    (a ∈ (aput d k v).map (fun p => p.1))
      ↔ (a = k ∨ a ∈ d.map (fun p => p.1)) := by
  simp only [aput, List.map_cons, List.mem_cons]
  constructor
  · rintro (rfl | h)
    · exact Or.inl rfl
    · exact Or.inr ((mem_keys_adel d k a).mp h).1
  · rintro (rfl | h)
    · exact Or.inl rfl
    · by_cases hak : a = k
      · exact Or.inl hak
      · exact Or.inr ((mem_keys_adel d k a).mpr ⟨h, hak⟩)

/-- Popping the head of the list and deleting its address from the dict
preserves the triple invariant. -/
theorem tInv_pop_head (nid i : Nat) (rest : List Nat)
    (h : List (Nat × CacheItem)) (d : List (Addr × Nat)) (it : CacheItem)
    (hlk : alookup h i = some it) (ht : TInv nid (i :: rest) h d) :
    TInv nid rest h (adel d it.address) := by
  obtain ⟨t1, t2, t3, t4, t5⟩ := ht
  have haddr : addrOf h i = it.address := by
    unfold addrOf
    rw [hlk]
  have hmap : (i :: rest).map (addrOf h)
      = it.address :: rest.map (addrOf h) := by
    rw [List.map_cons, haddr]
  rw [hmap] at t1 t2 t3
  have hnd := List.nodup_cons.mp t3
  refine ⟨?_, ?_, hnd.2, fun j hj => t4 j (List.mem_cons_of_mem _ hj),
    fun j hj => t5 j (List.mem_cons_of_mem _ hj)⟩
  · intro a ha
    obtain ⟨had, hne⟩ := (mem_keys_adel d it.address a).mp ha
    rcases List.mem_cons.mp (t1 a had) with rfl | hmem
    · exact absurd rfl hne
    · exact hmem
  · intro a ha
    refine (mem_keys_adel d it.address a).mpr
      ⟨t2 a (List.mem_cons_of_mem _ ha), ?_⟩
    intro hcontra
    exact hnd.1 (hcontra ▸ ha)

theorem popHeads_tInv (h : List (Nat × CacheItem)) (n : Nat) :
    ∀ (l : List Nat) (d : List (Addr × Nat)) (nid : Nat), TInv nid l h d →
    TInv nid (popHeads h n l d).1 h (popHeads h n l d).2
    ∧ (popHeads h n l d).1.length = l.length - n := by
  induction n with
  | zero =>
    intro l d nid ht
    exact ⟨ht, by simp [popHeads]⟩
  | succ n ih =>
    intro l d nid ht
    cases l with
    | nil => exact ⟨ht, by simp [popHeads]⟩
    | cons i rest =>
      obtain ⟨t1, t2, t3, t4, t5⟩ := ht
      have hs := t4 i (List.mem_cons_self _ _)
      cases hlk : alookup h i with
      | none =>
        rw [hlk] at hs
        exact absurd hs (by simp)
      | some it =>
        have hstep : TInv nid rest h (adel d it.address) :=
          tInv_pop_head nid i rest h d it hlk ⟨t1, t2, t3, t4, t5⟩
        have hred : popHeads h (n + 1) (i :: rest) d
            = popHeads h n rest (adel d it.address) := by
          conv_lhs => rw [popHeads]
          rw [hlk]
        rw [hred]
        obtain ⟨ha, hb⟩ := ih rest (adel d it.address) nid hstep
        refine ⟨ha, ?_⟩
        rw [hb]
        simp only [List.length_cons]
        omega

theorem purgeWhile_tInv (now : Int) :
    ∀ (l : List Nat) (h : List (Nat × CacheItem)) (d : List (Addr × Nat))
      (nid : Nat), TInv nid l h d →
    TInv nid (purgeWhile now l h d).1 (purgeWhile now l h d).2.1
        (purgeWhile now l h d).2.2
    ∧ (purgeWhile now l h d).1.length ≤ l.length := by
  intro l
  induction l with
  | nil =>
    intro h d nid ht
    exact ⟨ht, le_refl _⟩
  | cons i rest ih =>
    intro h d nid ht
    have hsome := ht.2.2.2.1 i (List.mem_cons_self _ _)
    cases hlk : alookup h i with
    | none =>
      rw [hlk] at hsome
      exact absurd hsome (by simp)
    | some it =>
      have ht2 : TInv nid (i :: rest) (aset h i (it.update_state now)) d :=
        tInv_aset_same nid (i :: rest) h d i it (it.update_state now) hlk
          (update_state_address it now) ht
      by_cases hp : (it.update_state now).state = CState.purged
      · have hred : purgeWhile now (i :: rest) h d
            = purgeWhile now rest (aset h i (it.update_state now))
                (adel d (it.update_state now).address) := by
          conv_lhs => rw [purgeWhile]
          rw [hlk]
          dsimp only
          rw [if_pos hp]
        rw [hred]
        have hstep : TInv nid rest (aset h i (it.update_state now))
            (adel d (it.update_state now).address) :=
          tInv_pop_head nid i rest _ d (it.update_state now)
            (alookup_aset_self _ _ _) ht2
        obtain ⟨ha, hb⟩ := ih (aset h i (it.update_state now))
          (adel d (it.update_state now).address) nid hstep
        exact ⟨ha, le_trans hb (by simp)⟩
      · have hred : purgeWhile now (i :: rest) h d
            = (i :: rest, aset h i (it.update_state now), d) := by
          conv_lhs => rw [purgeWhile]
          rw [hlk]
          dsimp only
          rw [if_neg hp]
        rw [hred]
        exact ⟨ht2, le_refl _⟩

/-- Binding a fresh identity (not yet allocated, hence unlisted) changes no
listed address or binding. -/
theorem tInv_aset_fresh (nid : Nat) (l : List Nat) (h : List (Nat × CacheItem))
    (d : List (Addr × Nat)) (it : CacheItem) (ht : TInv nid l h d) :
    TInv nid l (aset h nid it) d := by
  obtain ⟨t1, t2, t3, t4, t5⟩ := ht
  have hne : ∀ j ∈ l, ¬ nid = j := by
    intro j hj hcontra
    exact absurd (t5 j hj) (by omega)
  have hmap : l.map (addrOf (aset h nid it)) = l.map (addrOf h) := by
    refine List.map_congr_left ?_
    intro j hj
    unfold addrOf
    rw [alookup_aset_ne _ _ _ _ (hne j hj)]
  refine ⟨fun a ha => by rw [hmap]; exact t1 a ha,
    fun a ha => t2 a (by rw [hmap] at ha; exact ha),
    by rw [hmap]; exact t3, ?_, t5⟩
  intro j hj
  rw [alookup_aset_ne _ _ _ _ (hne j hj)]
  exact t4 j hj

/-- Appending the freshly allocated identity and binding its (new) address in
the dict restores the triple invariant at the bumped allocation counter. -/
theorem tInv_append_fresh (nid : Nat) (l : List Nat)
    (h : List (Nat × CacheItem)) (d : List (Addr × Nat)) (it : CacheItem)
    (ht : TInv nid l h d) (hlk : alookup h nid = some it)
    (hfresh : it.address ∉ d.map (fun p => p.1)) :
    TInv (nid + 1) (l ++ [nid]) h (aput d it.address nid) := by
  obtain ⟨t1, t2, t3, t4, t5⟩ := ht
  have haddr : addrOf h nid = it.address := by
    unfold addrOf
    rw [hlk]
  have hmap : (l ++ [nid]).map (addrOf h)
      = l.map (addrOf h) ++ [it.address] := by
    rw [List.map_append, List.map_singleton, haddr]
  have hnotin : it.address ∉ l.map (addrOf h) := by
    intro hcontra
    exact hfresh (t2 _ hcontra)
  refine ⟨?_, ?_, ?_, ?_, ?_⟩
  · intro a ha
    rw [hmap]
    rcases (mem_keys_aput d it.address nid a).mp ha with rfl | ha2
    · exact List.mem_append_right _ (List.mem_singleton.mpr rfl)
    · exact List.mem_append_left _ (t1 a ha2)
  · intro a ha
    rw [hmap] at ha
    rcases List.mem_append.mp ha with ha2 | ha2
    · exact (mem_keys_aput d it.address nid a).mpr (Or.inr (t2 a ha2))
    · exact (mem_keys_aput d it.address nid a).mpr
        (Or.inl (List.mem_singleton.mp ha2))
  · rw [hmap]
    rw [List.nodup_append]
    exact ⟨t3, List.nodup_singleton _, by
      intro a ha hb
      rw [List.mem_singleton] at hb
      exact hnotin (hb ▸ ha)⟩
  · intro j hj
    rcases List.mem_append.mp hj with hj2 | hj2
    · exact t4 j hj2
    · rw [List.mem_singleton.mp hj2, hlk]
      rfl
  · intro j hj
    rcases List.mem_append.mp hj with hj2 | hj2
    · exact lt_trans (t5 j hj2) (by omega)
    · rw [List.mem_singleton.mp hj2]
      omega

theorem keys_popHeads_sub (h : List (Nat × CacheItem)) (n : Nat) :
    ∀ (l : List Nat) (d : List (Addr × Nat)) (a : Addr),
      a ∈ (popHeads h n l d).2.map (fun p => p.1) → a ∈ d.map (fun p => p.1) := by
  induction n with
  | zero => intro l d a ha; exact ha
  | succ n ih =>
    intro l d a ha
    cases l with
    | nil => exact ha
    | cons i rest =>
      have hred : popHeads h (n + 1) (i :: rest) d
          = popHeads h n rest
              (match alookup h i with
               | some it => adel d it.address
               | none => d) := by
        conv_lhs => rw [popHeads]
      rw [hred] at ha
      have := ih rest _ a ha
      cases hlk : alookup h i with
      | none => rw [hlk] at this; exact this
      | some it =>
        rw [hlk] at this
        exact ((mem_keys_adel d it.address a).mp this).1

theorem keys_purgeWhile_sub (now : Int) :
    ∀ (l : List Nat) (h : List (Nat × CacheItem)) (d : List (Addr × Nat))
      (a : Addr), a ∈ (purgeWhile now l h d).2.2.map (fun p => p.1) →
      a ∈ d.map (fun p => p.1) := by
  intro l
  induction l with
  | nil => intro h d a ha; exact ha
  | cons i rest ih =>
    intro h d a ha
    cases hlk : alookup h i with
    | none =>
      have hred : purgeWhile now (i :: rest) h d = (i :: rest, h, d) := by
        conv_lhs => rw [purgeWhile]
        rw [hlk]
      rw [hred] at ha
      exact ha
    | some it =>
      by_cases hp : (it.update_state now).state = CState.purged
      · have hred : purgeWhile now (i :: rest) h d
            = purgeWhile now rest (aset h i (it.update_state now))
                (adel d (it.update_state now).address) := by
          conv_lhs => rw [purgeWhile]
          rw [hlk]
          dsimp only
          rw [if_pos hp]
        rw [hred] at ha
        exact ((mem_keys_adel d _ a).mp (ih _ _ a ha)).1
      · have hred : purgeWhile now (i :: rest) h d
            = (i :: rest, aset h i (it.update_state now), d) := by
          conv_lhs => rw [purgeWhile]
          rw [hlk]
          dsimp only
          rw [if_neg hp]
        rw [hred] at ha
        exact ha

theorem purge_items_tInv (c : Cache) (now : Int) (nid : Nat)
    (ht : TInv nid c.items_list c.iheap c.items) :
    TInv nid (c.purge_items now).items_list (c.purge_items now).iheap
        (c.purge_items now).items
    ∧ (c.purge_items now).items_list.length ≤ 3 * c.max_items / 4
    ∧ ∀ a, a ∈ (c.purge_items now).items.map (fun p => p.1) →
        a ∈ c.items.map (fun p => p.1) := by
  unfold Cache.purge_items
  dsimp only
  obtain ⟨hp1, hp2⟩ := popHeads_tInv c.iheap
    (c.items_list.length - 3 * c.max_items / 4) c.items_list c.items nid ht
  obtain ⟨hw1, hw2⟩ := purgeWhile_tInv now
    (popHeads c.iheap (c.items_list.length - 3 * c.max_items / 4)
      c.items_list c.items).1 c.iheap
    (popHeads c.iheap (c.items_list.length - 3 * c.max_items / 4)
      c.items_list c.items).2 nid hp1
  refine ⟨hw1, ?_, ?_⟩
  · calc _ ≤ (popHeads c.iheap (c.items_list.length - 3 * c.max_items / 4)
        c.items_list c.items).1.length := hw2
    _ = c.items_list.length - (c.items_list.length - 3 * c.max_items / 4) := hp2
    _ ≤ 3 * c.max_items / 4 := by omega
  · intro a ha
    exact keys_popHeads_sub c.iheap _ c.items_list c.items a
      (keys_purgeWhile_sub now _ c.iheap _ a ha)

theorem purge_items_cacheInv (c : Cache) (now : Int) (h : CacheInv c) :
    CacheInv (c.purge_items now) := by
  obtain ⟨ht, hlen⟩ := h
  obtain ⟨h1, h2, -⟩ := purge_items_tInv c now c.next_id ht
  refine ⟨?_, ?_⟩
  · rw [(purge_items_fetcherFrame c now).2.2.2.1]
    exact h1
  · rw [(purge_items_fetcherFrame c now).2.2.2.2.1]
    calc _ ≤ 3 * c.max_items / 4 := h2
    _ ≤ c.max_items := by omega

theorem update_item_cacheInv (c : Cache) (now : Int) (iid : Nat)
    (h : CacheInv c) : CacheInv ((c.update_item now iid).2) := by
  unfold Cache.update_item
  cases hlk : alookup c.iheap iid with
  | none => exact h
  | some it =>
    dsimp only
    obtain ⟨ht, hlen⟩ := h
    have h1 : TInv c.next_id c.items_list (aset c.iheap iid (it.update_state now))
        c.items :=
      tInv_aset_same c.next_id c.items_list c.iheap c.items iid it
        (it.update_state now) hlk (update_state_address it now) ht
    have h2 : TInv c.next_id
        (sortItems (aset c.iheap iid (it.update_state now)) c.items_list)
        (aset c.iheap iid (it.update_state now)) c.items :=
      tInv_perm _ _ _ _ _ (sortItems_perm _ _) h1
    have hlen2 : (sortItems (aset c.iheap iid (it.update_state now))
        c.items_list).length ≤ c.max_items := by
      rw [(sortItems_perm _ _).length_eq]
      exact hlen
    split_ifs with hp hq
    · exact purge_items_cacheInv _ now ⟨h2, hlen2⟩
    · exact ⟨h2, hlen2⟩
    · exact ⟨h2, hlen2⟩

theorem get_item_ref_cacheInv (c : Cache) (now : Int) (address : Addr)
    (s : CState) (h : CacheInv c) : CacheInv ((c.get_item_ref now address s).2) := by
  unfold Cache.get_item_ref
  cases hd : alookup c.items address with
  | none => exact h
  | some iid =>
    dsimp only
    cases hh : alookup ((c.update_item now iid).2).iheap iid with
    | none => exact update_item_cacheInv c now iid h
    | some it =>
      dsimp only
      split_ifs <;> exact update_item_cacheInv c now iid h

theorem get_item_cacheInv (c : Cache) (now : Int) (address : Addr) (s : CState)
    (h : CacheInv c) : CacheInv ((c.get_item now address s).2) :=
  get_item_ref_cacheInv c now address s h

theorem invalidate_object_cacheInv (c : Cache) (now : Int) (address : Addr)
    (s : CState) (h : CacheInv c) : CacheInv (c.invalidate_object now address s) := by
  unfold Cache.invalidate_object
  dsimp only
  cases hg : (c.get_item_ref now address .fresh).1 with
  | none => exact get_item_ref_cacheInv c now address .fresh h
  | some iid =>
    dsimp only
    cases hh : alookup ((c.get_item_ref now address .fresh).2).iheap iid with
    | none => exact get_item_ref_cacheInv c now address .fresh h
    | some it =>
      dsimp only
      split_ifs with hlt
      · obtain ⟨ht, hlen⟩ := get_item_ref_cacheInv c now address .fresh h
        have h1 : TInv (c.get_item_ref now address .fresh).2.next_id
            (c.get_item_ref now address .fresh).2.items_list
            (aset (c.get_item_ref now address .fresh).2.iheap iid
              (CacheItem.update_state { it with state := s } now))
            (c.get_item_ref now address .fresh).2.items :=
          tInv_aset_same _ _ _ _ iid it _ hh rfl ht
        refine ⟨tInv_perm _ _ _ _ _ (sortItems_perm _ _) h1, ?_⟩
        rw [(sortItems_perm _ _).length_eq]
        exact hlen
      · exact get_item_ref_cacheInv c now address .fresh h

theorem purge_items_alookup (c : Cache) (now : Int) (j : Nat) (it : CacheItem)
    (hlk : alookup c.iheap j = some it) (hid : it.update_state now = it) :
    alookup (c.purge_items now).iheap j = some it := by
  unfold Cache.purge_items
  dsimp only
  rcases purgeWhile_alookup now
      (popHeads c.iheap (c.items_list.length - 3 * c.max_items / 4)
        c.items_list c.items).1 c.iheap
      (popHeads c.iheap (c.items_list.length - 3 * c.max_items / 4)
        c.items_list c.items).2 j with h1 | h1
  · rw [h1, hlk]
  · rw [h1, hlk]
    simp [hid]

theorem add_item_cacheInv (c : Cache) (now : Int) (item : CacheItem)
    (h : CacheInv c) (hmax : 1 ≤ c.max_items)
    (hfresh : item.address ∉ c.items.map (fun p => p.1)) :
    CacheInv ((c.add_item now item).2) := by
  obtain ⟨ht, hlen⟩ := h
  unfold Cache.add_item
  dsimp only
  set itU := item.update_state now with hitU
  set c1 : Cache := { c with iheap := aset c.iheap c.next_id itU, next_id := c.next_id + 1 } with hc1
  have haddrU : itU.address = item.address := update_state_address item now
  have h1 : TInv c.next_id c.items_list (aset c.iheap c.next_id itU) c.items :=
    tInv_aset_fresh _ _ _ _ _ ht
  by_cases hp : itU.state ≠ CState.purged
  · rw [if_pos hp]
    by_cases hcap : c.items_list.length ≥ c.max_items
    · rw [if_pos hcap]
      dsimp only
      obtain ⟨hq1, hq2, hq3⟩ := purge_items_tInv c1 now c.next_id h1
      have hbind : alookup (c1.purge_items now).iheap c.next_id = some itU := by
        refine purge_items_alookup c1 now c.next_id itU ?_ ?_
        · rw [hc1]
          exact alookup_aset_self _ _ _
        · rw [hitU]
          exact update_state_idem item now
      have hfresh2 : itU.address ∉
          (c1.purge_items now).items.map (fun p => p.1) := by
        intro hc
        refine hfresh (haddrU ▸ ?_)
        have := hq3 itU.address hc
        rw [hc1] at this
        exact this
      have h2 := tInv_append_fresh c.next_id _ _ _ itU hq1 hbind hfresh2
      refine ⟨tInv_perm _ _ _ _ _ (sortItems_perm _ _) h2, ?_⟩
      rw [(sortItems_perm _ _).length_eq, List.length_append]
      simp only [List.length_singleton]
      have hm := hq2
      have e1 : c1.max_items = c.max_items := by rw [hc1]
      have e2 : (c1.purge_items now).max_items = c1.max_items :=
        (purge_items_fetcherFrame c1 now).2.2.2.2.1
      omega
    · rw [if_neg hcap]
      dsimp only
      have h2 := tInv_append_fresh c.next_id c.items_list
        (aset c.iheap c.next_id itU) c.items itU h1 (alookup_aset_self _ _ _)
        (by rw [haddrU]; exact hfresh)
      refine ⟨tInv_perm _ _ _ _ _ (sortItems_perm _ _) h2, ?_⟩
      rw [(sortItems_perm _ _).length_eq, List.length_append]
      simp only [List.length_singleton]
      omega
  · rw [if_neg hp]
    dsimp only
    have e3 : c1.next_id = c.next_id + 1 := by rw [hc1]
    have e4 : c1.max_items = c.max_items := by rw [hc1]
    have e5 : c1.items_list = c.items_list := by rw [hc1]
    have e6 : c1.iheap = aset c.iheap c.next_id itU := by rw [hc1]
    have e7 : c1.items = c.items := by rw [hc1]
    refine ⟨?_, ?_⟩
    · rw [e3, e5, e6, e7]
      exact tInv_mono _ _ _ _ _ (by omega) h1
    · rw [e5, e4]
      exact hlen

/-- The fields of the cache that the fetcher-side bookkeeping
(`remove_fetcher`, `_deactivate`) never touches. -/
def ItemFrame (c c' : Cache) : Prop :=
  c'.items = c.items ∧ c'.items_list = c.items_list ∧ c'.iheap = c.iheap
  ∧ c'.next_id = c.next_id ∧ c'.max_items = c.max_items

theorem cacheInv_of_itemFrame (c c' : Cache) (hf : ItemFrame c c')
    (h : CacheInv c) : CacheInv c' := by
  obtain ⟨f1, f2, f3, f4, f5⟩ := hf
  obtain ⟨ht, hl⟩ := h
  unfold CacheInv
  rw [f1, f2, f3, f4, f5]
  exact ⟨ht, hl⟩

theorem remove_fetcher_itemFrame (c : Cache) (fid : Nat) :
    ItemFrame c (Cache.remove_fetcher c fid) := by
  by_cases hin : c.active_fetchers.any (fun p => p.2 = fid) = true
  · cases hlk : alookup c.fheap fid with
    | none =>
      rw [remove_fetcher_eq_pos_none c fid hin hlk]
      exact ⟨rfl, rfl, rfl, rfl, rfl⟩
    | some f =>
      rw [remove_fetcher_eq_pos_some c fid f hin hlk]
      exact ⟨rfl, rfl, rfl, rfl, rfl⟩
  · rw [remove_fetcher_eq_neg c fid (Bool.eq_false_iff.mpr hin)]
    exact ⟨rfl, rfl, rfl, rfl, rfl⟩

theorem deactivate_itemFrame (c : Cache) (fid : Nat) :
    ItemFrame c (CacheFetcher.deactivate c fid) := by
  have h1 := remove_fetcher_itemFrame c fid
  unfold CacheFetcher.deactivate
  dsimp only
  cases hlk : alookup (Cache.remove_fetcher c fid).fheap fid with
  | none => exact h1
  | some f =>
    dsimp only
    by_cases hf : f.active = true
    · rw [if_pos hf]
      obtain ⟨f1, f2, f3, f4, f5⟩ := h1
      exact ⟨f1, f2, f3, f4, f5⟩
    · rw [if_neg hf]
      exact h1

theorem try_backup_cacheInv (f : CacheFetcher) (c : Cache) (now : Int)
    (h : CacheInv c) : CacheInv ((f.try_backup_item c now).2.1) := by
  unfold CacheFetcher.try_backup_item
  cases f.backup_state with
  | none => exact h
  | some bs =>
    dsimp only
    cases hg : (c.get_item now f.address bs).1 with
    | none => exact get_item_cacheInv c now f.address bs h
    | some it => exact get_item_cacheInv c now f.address bs h

theorem timeout_cacheInv (c : Cache) (now : Int) (fid : Nat)
    (h : CacheInv c) : CacheInv (CacheFetcher.timeout c now fid).1 := by
  unfold CacheFetcher.timeout
  cases hlk : alookup c.fheap fid with
  | none => exact h
  | some f =>
    dsimp only
    by_cases hact : f.active = true
    · rw [if_neg (by simp [hact])]
      dsimp only
      exact cacheInv_of_itemFrame _ _ (deactivate_itemFrame _ fid)
        (invalidate_object_cacheInv _ now f.address .stale
          (try_backup_cacheInv f c now h))
    · rw [if_pos (by simpa using hact)]
      exact h

theorem tickAux_cacheInv (now : Int) :
    ∀ (todo : List (DT × Nat)) (c : Cache), CacheInv c →
      CacheInv (Cache.tickAux now todo c).1 := by
  intro todo
  induction todo with
  | nil => intro c h; exact h
  | cons p rest ih =>
    intro c h
    obtain ⟨t, fid⟩ := p
    have hred : Cache.tickAux now ((t, fid) :: rest) c
        = if (now : DT) < t then (c, [])
          else
            ((Cache.tickAux now rest (CacheFetcher.timeout c now fid).1).1,
              (CacheFetcher.timeout c now fid).2
                ++ (Cache.tickAux now rest (CacheFetcher.timeout c now fid).1).2) := by
      conv_lhs => rw [Cache.tickAux]
    rw [hred]
    split_ifs with hlt
    · exact h
    · exact ih _ (timeout_cacheInv c now fid h)

theorem tick_cacheInv (c : Cache) (now : Int) (h : CacheInv c) :
    CacheInv (Cache.tick c now).1 :=
  purge_items_cacheInv _ now (tickAux_cacheInv now c.active_fetchers c h)

theorem request_object_cacheInv (c : Cache) (now : Int) (address : Addr)
    (s : CState) (eh hth : Bool) (bs : Option CState) (tmo : Int)
    (fp ep pp : Option Int) (c' : Cache) (evs : List Ev) (h : CacheInv c)
    (hok : Cache.request_object c now address s eh hth bs tmo fp ep pp
      = .ok (c', evs)) : CacheInv c' := by
  unfold Cache.request_object at hok
  by_cases hf : (c.get_item now address s).2.fetcher_set = true
  · rw [if_neg (by simp [hf])] at hok
    dsimp only at hok
    injection hok with hok
    injection hok with h1 h2
    subst h1
    obtain ⟨ht, hl⟩ := get_item_cacheInv c now address s h
    exact ⟨tInv_mono _ _ _ _ _ (by dsimp only; omega) ht, hl⟩
  · rw [if_pos (by simpa using hf)] at hok
    exact absurd hok (by simp)

instance tInv_decidable (nid : Nat) (l : List Nat)
    (h : List (Nat × CacheItem)) (d : List (Addr × Nat)) :
    Decidable (TInv nid l h d) := by
  unfold TInv
  infer_instance

instance cacheInv_decidable (c : Cache) : Decidable (CacheInv c) := by
  unfold CacheInv
  infer_instance

/-- A fresh item for the C6 counterexample: generous deadlines, so nothing
expires during the scenario. -/
def mkIt (a : Addr) (v : Val) (ts : Int) : CacheItem :=
  { address := a
    value := v
    timestamp := ts
    freshness_time := ts + 1000
    expire_time := ts + 2000
    purge_time := ((ts + 3000 : Int) : DT)
    state := .new
    state_value := 0 }

/-- Five `add_item` calls against a `max_items = 4` cache: addresses
1, 2, 3, then 1 again (a duplicate), then 4 — the last add triggers the
capacity purge. -/
def c6end : Cache :=
  (((((Cache.init 4 1000 2000 3000).add_item 0 (mkIt 1 11 0)).2.add_item 1
      (mkIt 2 12 1)).2.add_item 2 (mkIt 3 13 2)).2.add_item 3
      (mkIt 1 14 3)).2.add_item 4 (mkIt 4 15 4) |>.2

/-- C6 counterexample: after the fifth `add_item` of `c6end` returns — a
public operation on a cache whose earlier inputs were also only public
`add_item` calls — address 1 is still listed in `_items_list` (the stale
duplicate left by the same-address add) but is no longer a key of `_items`
(the purge popped the older copy and deleted the shared key), so the claimed
key-set equality fails. -/
theorem C6_keyset_counterexample :
    (1 ∈ addrsOf c6end) ∧ (1 ∉ c6end.items.map (fun p => p.1)) := by
  decide

/-- C6 (amended): with addresses kept unique — `add_item` only ever given an
address not already stored — every public cache operation preserves the
invariant `CacheInv`: the key set of `_items` equals the address set of
`_items_list` (each address listed once), and `|items_list| ≤ max_items`
(for `max_items ≥ 1`).  An `add_item` under an already-stored address leaves
a duplicate in `_items_list` that a later purge turns into a key-set
violation, as the counterexample shows. -/
theorem C6_invariants_preserved (c : Cache) (now : Int) (address : Addr)
    (s : CState) (item : CacheItem) (iid : Nat) (eh hth : Bool)
    (bs : Option CState) (tmo : Int) (fp ep pp : Option Int)
    (hInv : CacheInv c) (hmax : 1 ≤ c.max_items) :
    CacheInv (c.purge_items now)
    ∧ CacheInv ((c.update_item now iid).2)
    ∧ CacheInv ((c.get_item now address s).2)
    ∧ CacheInv (c.invalidate_object now address s)
    ∧ (item.address ∉ c.items.map (fun p => p.1) →
        CacheInv ((c.add_item now item).2))
    ∧ (∀ c' evs, Cache.request_object c now address s eh hth bs tmo fp ep pp
        = .ok (c', evs) → CacheInv c')
    ∧ CacheInv (Cache.tick c now).1 :=
  ⟨purge_items_cacheInv c now hInv,
    update_item_cacheInv c now iid hInv,
    get_item_cacheInv c now address s hInv,
    invalidate_object_cacheInv c now address s hInv,
    fun hfresh => add_item_cacheInv c now item hInv hmax hfresh,
    fun c' evs hok =>
      request_object_cacheInv c now address s eh hth bs tmo fp ep pp c' evs
        hInv hok,
    tick_cacheInv c now hInv⟩

/-- Witness for C6 at the concrete cache `c5ex` (one stored item, capacity
10): `tick` preserves the invariant there. -/
theorem C6_invariants_preserved_witness : CacheInv (Cache.tick c5ex 50).1 := by
  have h := C6_invariants_preserved c5ex 50 1 CState.stale (mkIt 2 9 0) 0
    false false none 60 none none none (by decide) (by decide)
  exact h.2.2.2.2.2.2
